import Mathlib

/-!
Exam administration backend: duty allocator and seating allocator.

A shallow embedding of the allocation logic of `backend_integrated/server.js`:

* the teacher-duty allocator (`POST /api/allocate-division`,
  `POST /api/manual-allocate`, `DELETE /api/allocations/classroom/:classroomId`);
* the seating allocator (`GET /seating-arrangement`).

The relational store is a record of row lists.  A query is a function of the
store, a write returns the new store.  Integer columns are `Int`, generated
keys (`INT AUTO_INCREMENT PRIMARY KEY`) are `Nat`, a `BOOLEAN` column is the
truth value of `column = 1`.  The store compares a `VARCHAR` with a request
text by equality of strings and orders names by code point; it accepts every
`INSERT` the handlers send.  The tables `classrooms` and `teachers` are not
written by the handlers modelled here.  The teacher query of the batch call
splices the request's semester into its text: for the texts `3` and `5` the
embedding runs it, for every other text the answer of the store is a parameter
(`OtherQueries`).

A number of a request is an integer.  The integers of magnitude up to `2 ^ 53`
are JavaScript numbers; the booklet loop is followed on these, with the step
`roll++` that stalls at `2 ^ 53` and the array bound `2 ^ 32 - 1`.  Memory is
not bounded.

Further parts: the teacher rows built by `initializeDatabase`, the absentee
mark (`routes/absenteeRoutes.js`) and the booklet assignment
(`routes/bookletRoutes.js`).
-/

namespace ExamAdmin

/-! ## Tables -/

/-- A row of `classrooms`. -/
structure Classroom where
  id : Nat
  name : String
  num_benches : Int
  students_per_bench : Int
  total_capacity : Int
deriving DecidableEq, Repr

/-- A row of `teachers`. -/
structure Teacher where
  id : Nat
  name : String
  teaches_sem_3 : Bool
  teaches_sem_5 : Bool
  division : String
deriving DecidableEq, Repr

/-- A row of `allocations`; the handlers write `teacher_id` and `classroom_id`
only, the other columns are generated or defaulted by the store. -/
structure Allocation where
  teacher_id : Nat
  classroom_id : Nat
deriving DecidableEq, Repr

/-- The three tables the duty allocator works on. -/
structure DB where
  classrooms : List Classroom
  teachers : List Teacher
  allocations : List Allocation
deriving DecidableEq, Repr

/-- The primary keys of `classrooms` and `teachers`: no two rows share an id. -/
def DB.PrimaryKeys (db : DB) : Prop :=
  (db.classrooms.map Classroom.id).Nodup ∧ (db.teachers.map Teacher.id).Nodup

instance (db : DB) : Decidable db.PrimaryKeys := by
  unfold DB.PrimaryKeys; infer_instance

/-! ## Request values and responses -/

/-- A field of a JSON request body, as far as the handlers tell values apart:
a string, an integral number, or no value. -/
inductive JsValue where
  | str (s : String)
  | num (n : Int)
  | undefined
deriving DecidableEq, Repr

/-- The text a template literal splices in for a value. -/
def JsValue.text : JsValue → String
  | .str s => s
  | .num n => toString n
  | .undefined => "undefined"

/-- What a handler sends back. -/
inductive Response where
  /-- Status 200 with body `{success: true, message}`. -/
  | success (message : String)
  /-- Status `status` with body `{error}`, sent by the handler itself. -/
  | failure (status : Nat) (error : String)
  /-- Status 500 from the `catch` block; the text is the one of the store. -/
  | storeError
deriving DecidableEq, Repr

/-! ## Queries of the duty allocator -/

/-- The allocation rows joined to a classroom:
`LEFT JOIN allocations a ON c.id = a.classroom_id`. -/
def allocationsOf (db : DB) (classroomId : Nat) : List Allocation :=
  db.allocations.filter (fun a => a.classroom_id = classroomId)

/-- The teacher row joined to an allocation row:
`LEFT JOIN teachers t ON a.teacher_id = t.id` (`t.id` is the primary key). -/
def teacherOf (db : DB) (a : Allocation) : Option Teacher :=
  db.teachers.find? (fun t => t.id = a.teacher_id)

/-- The test `CASE WHEN t.<flag> = 1 THEN 1 ELSE 0 END` on a joined row. -/
def hasFlag (db : DB) (flag : Teacher → Bool) (a : Allocation) : Bool :=
  match teacherOf db a with
  | some t => flag t
  | none => false

/-- The aggregate `COUNT(a.id)` of a classroom. -/
def current_teachers (db : DB) (classroomId : Nat) : Nat :=
  (allocationsOf db classroomId).length

/-- The aggregate `SUM(CASE WHEN t.<flag> = 1 THEN 1 ELSE 0 END)` of a classroom. -/
def semCount (db : DB) (flag : Teacher → Bool) (classroomId : Nat) : Nat :=
  ((allocationsOf db classroomId).filter (hasFlag db flag)).length

/-- The aggregate `sem3_count`. -/
def sem3_count (db : DB) (classroomId : Nat) : Nat :=
  semCount db Teacher.teaches_sem_3 classroomId

/-- The aggregate `sem5_count`. -/
def sem5_count (db : DB) (classroomId : Nat) : Nat :=
  semCount db Teacher.teaches_sem_5 classroomId

/-- A row of the classroom query: `c.*` with the three aggregates. -/
structure ClassroomRow where
  classroom : Classroom
  current_teachers : Nat
  sem3_count : Nat
  sem5_count : Nat
deriving DecidableEq, Repr

/-- The grouped row of one classroom (`GROUP BY c.id`). -/
def classroomRow (db : DB) (c : Classroom) : ClassroomRow :=
  { classroom := c
    current_teachers := current_teachers db c.id
    sem3_count := sem3_count db c.id
    sem5_count := sem5_count db c.id }

/-- The order of names under `ORDER BY name`, taken as the lexicographic order
of the code points. -/
def charsLE : List Char → List Char → Bool
  | [], _ => true
  | _ :: _, [] => false
  | a :: as, b :: bs =>
    if a.toNat < b.toNat then true
    else if b.toNat < a.toNat then false
    else charsLE as bs

/-- The comparison of two names under `ORDER BY name`. -/
def nameLE (a b : String) : Bool :=
  charsLE a.data b.data

/-- The order `ORDER BY COUNT(a.id) ASC, c.name`. -/
def rowBefore (a b : ClassroomRow) : Prop :=
  a.current_teachers < b.current_teachers ∨
    (a.current_teachers = b.current_teachers ∧ nameLE a.classroom.name b.classroom.name = true)

instance : DecidableRel rowBefore := fun a b => by
  unfold rowBefore; infer_instance

/-- The `classroomQuery` of allocate-division: grouped rows with
`HAVING COUNT(a.id) < c.students_per_bench`, ordered. -/
def availableClassrooms (db : DB) : List ClassroomRow :=
  ((db.classrooms.map (classroomRow db)).filter
    (fun r => (r.current_teachers : Int) < r.classroom.students_per_bench)).insertionSort rowBefore

/-- The column `teaches_sem_${semester}` of the teacher query when the spliced
text is `3` or `5`, the two texts that complete the name of a flag column of
`teachers`. -/
def semesterColumn (semester : JsValue) : Option (Teacher → Bool) :=
  if semester.text = "3" then some Teacher.teaches_sem_3
  else if semester.text = "5" then some Teacher.teaches_sem_5
  else none

/-- Whether a teacher has an allocation row (`a.id IS NULL` fails). -/
def isAllocated (db : DB) (t : Teacher) : Bool :=
  db.allocations.any (fun a => a.teacher_id = t.id)

/-- The `teacherQuery` of allocate-division: flag set, division equal, no
allocation row, `ORDER BY t.name`. -/
def availableTeachers (db : DB) (column : Teacher → Bool) (division : String) : List Teacher :=
  (db.teachers.filter
    (fun t => column t && decide (t.division = division) && !isAllocated db t)).insertionSort
    (fun a b => nameLE a.name b.name = true)

/-! ## `POST /api/allocate-division` -/

/-- The decision `canAllocate` of the walk, on the snapshot row of a classroom. -/
def canAllocate (semester : JsValue) (classroom : ClassroomRow) : Bool :=
  let sem3Teachers := classroom.sem3_count
  let sem5Teachers := classroom.sem5_count
  let currentTotal := classroom.current_teachers
  let maxTeachers := classroom.classroom.students_per_bench
  if (currentTotal : Int) < maxTeachers then
    if maxTeachers = 2 then
      (decide (semester = .str "3") && decide (sem3Teachers < 1)) ||
        (decide (semester = .str "5") && decide (sem5Teachers < 1))
    else if maxTeachers = 3 then
      (decide (semester = .str "3") && decide (sem3Teachers < 2)) ||
        (decide (semester = .str "5") && decide (sem5Teachers < 2))
    else false
  else false

/-- The `forEach` walk over the classroom rows with the cursor `teacherIndex`;
the result lists the pushed pairs `[teacher id, classroom id]` in order. -/
def walk (semester : JsValue) (availableTeachers : List Teacher) :
    List ClassroomRow → Nat → List (Nat × Nat)
  | [], _ => []
  | classroom :: rest, teacherIndex =>
    if h : canAllocate semester classroom = true ∧ teacherIndex < availableTeachers.length then
      ((availableTeachers.get ⟨teacherIndex, h.2⟩).id, classroom.classroom.id) ::
        walk semester availableTeachers rest (teacherIndex + 1)
    else walk semester availableTeachers rest teacherIndex

/-- What the store answers to the teacher query when the spliced text is
neither `3` nor `5`: no value when it rejects the statement the text makes of
the query, else the rows that statement selects.  The arguments are the
spliced text, the store and the division. -/
abbrev OtherQueries := String → DB → String → Option (List Teacher)

/-- The answer of the store to the `teacherQuery` of allocate-division. -/
def teacherQuery (others : OtherQueries) (db : DB) (semester : JsValue) (division : String) :
    Option (List Teacher) :=
  match semesterColumn semester with
  | some column => some (availableTeachers db column division)
  | none => others semester.text db division

/-- The pairs allocate-division computes when the spliced text names the flag
column `column`. -/
def pairings (db : DB) (semester : JsValue) (column : Teacher → Bool) (division : String) :
    List (Nat × Nat) :=
  walk semester (availableTeachers db column division) (availableClassrooms db) 0

/-- The statement `INSERT INTO allocations (teacher_id, classroom_id) VALUES ?`. -/
def insertAllocations (db : DB) (rows : List (Nat × Nat)) : DB :=
  { db with allocations := db.allocations ++ rows.map (fun p => ⟨p.1, p.2⟩) }

/-- The handler of `POST /api/allocate-division`: the response and the store
afterwards.  A teacher query the store rejects ends in the `catch` block. -/
def allocateDivision (others : OtherQueries) (db : DB) (semester : JsValue)
    (division : String) : Response × DB :=
  match teacherQuery others db semester division with
  | none => (.storeError, db)
  | some availableTeachers =>
    let allocations := walk semester availableTeachers (availableClassrooms db) 0
    if allocations.length > 0 then
      (.success ("Created " ++ toString allocations.length ++ " allocations"),
        insertAllocations db allocations)
    else
      (.failure 400 "No valid allocations could be created. Check semester distribution rules.",
        db)

/-! ## `POST /api/manual-allocate` -/

/-- A request id that passes the test `!id`: present and not `0`. -/
def truthyId : Option Nat → Option Nat
  | some (n + 1) => some (n + 1)
  | _ => none

/-- The handler of `POST /api/manual-allocate`: the response and the store
afterwards.  The request ids are numbers, or absent. -/
def manualAllocate (db : DB) (teacherId classroomId : Option Nat) : Response × DB :=
  match truthyId teacherId, truthyId classroomId with
  | some teacherId, some classroomId =>
    match db.teachers.find? (fun t => t.id = teacherId) with
    | none => (.failure 404 "Teacher not found", db)
    | some teacher =>
      match db.classrooms.find? (fun c => c.id = classroomId) with
      | none => (.failure 404 "Classroom not found", db)
      | some c =>
        let classroom := classroomRow db c
        if (classroom.current_teachers : Int) ≥ classroom.classroom.students_per_bench then
          (.failure 400 "Classroom is already full", db)
        else
          let isSem3Teacher := teacher.teaches_sem_3
          let isSem5Teacher := teacher.teaches_sem_5
          let inserted : Response × DB :=
            (.success "Teacher allocated successfully",
              insertAllocations db [(teacherId, classroomId)])
          if classroom.classroom.students_per_bench = 2 then
            if (isSem3Teacher && decide (classroom.sem3_count > 0)) ||
                (isSem5Teacher && decide (classroom.sem5_count > 0)) then
              (.failure 400
                "For 2-capacity rooms, cannot have more than one teacher from the same semester",
                db)
            else inserted
          else if classroom.classroom.students_per_bench = 3 then
            if (isSem3Teacher && decide (classroom.sem3_count ≥ 2)) ||
                (isSem5Teacher && decide (classroom.sem5_count ≥ 2)) then
              (.failure 400
                "For 3-capacity rooms, cannot have more than two teachers from the same semester",
                db)
            else inserted
          else inserted
  | _, _ => (.failure 400 "Teacher ID and Classroom ID are required", db)

/-! ## `DELETE /api/allocations/classroom/:classroomId` -/

/-- The handler of the delete route: `DELETE FROM allocations WHERE classroom_id = ?`. -/
def deleteClassroomAllocations (db : DB) (classroomId : Nat) : Response × DB :=
  (.success "Allocations deleted successfully",
    { db with allocations := db.allocations.filter (fun a => a.classroom_id ≠ classroomId) })

/-! ## Sequences of duty allocations -/

/-- A duty allocation request: batch or manual. -/
inductive DutyCall where
  | allocateDivision (semester : JsValue) (division : String)
  | manualAllocate (teacherId classroomId : Option Nat)
deriving DecidableEq, Repr

/-- The store after one duty allocation request. -/
def DutyCall.apply (others : OtherQueries) (db : DB) : DutyCall → DB
  | .allocateDivision semester division =>
    (ExamAdmin.allocateDivision others db semester division).2
  | .manualAllocate teacherId classroomId => (ExamAdmin.manualAllocate db teacherId classroomId).2

/-- The store after a sequence of duty allocation requests. -/
def runCalls (others : OtherQueries) (db : DB) (calls : List DutyCall) : DB :=
  calls.foldl (DutyCall.apply others) db

/-! ## `GET /seating-arrangement` -/

/-- A row of `classroom_list_2`. -/
structure SeatingClassroom where
  sequence_number : Int
  classroom_name : String
  no_of_benches : Int
deriving DecidableEq, Repr

/-- A row of `student_list` (5th semester) or `student_list_3rd`. -/
structure Student where
  rno : Int
  usn : String
  name : String
deriving DecidableEq, Repr

/-- The object `divisions` of `groupByDivision`, its entries listed in the
order of `Object.keys`: the keys that are non-negative integers ascending,
then the other keys (negative numbers) in the order of their creation. -/
abbrev Divisions := List (Int × List Int)

/-- The two statements `if (!divisions[division]) divisions[division] = []`
and `divisions[division].push(student.rno)`. -/
def Divisions.push : Divisions → Int → Int → Divisions
  | [], division, rno => [(division, [rno])]
  | (key, band) :: rest, division, rno =>
    if key = division then (key, band ++ [rno]) :: rest
    else if 0 ≤ division ∧ (key < 0 ∨ division < key) then
      (division, [rno]) :: (key, band) :: rest
    else (key, band) :: Divisions.push rest division rno

/-- The grouping loop over roll numbers; the division of a roll number is
`Math.floor(rno / 100)`. -/
def groupRolls (rollNumbers : List Int) : Divisions :=
  rollNumbers.foldl (fun divisions rno => divisions.push (Int.fdiv rno 100) rno) []

/-- The function `groupByDivision`. -/
def groupByDivision (students : List Student) : Divisions :=
  groupRolls (students.map Student.rno)

/-- One semester track in one classroom: the first key of the object, the
`splice(0, benches)` on its band and the `delete` of a drained band.  The
result holds the spliced students, the paper count and the object afterwards.
A `splice` with a count below 0 removes nothing. -/
def drawTrack (divisions : Divisions) (benches : Int) : (List Int × Nat) × Divisions :=
  match divisions with
  | [] => (([], 0), [])
  | (currentDivision, band) :: rest =>
    let students := band.take benches.toNat
    let remaining := band.drop benches.toNat
    ((students, students.length + 2),
      if remaining.length = 0 then rest else (currentDivision, remaining) :: rest)

/-- The function `getRollNumberRange`; its filter `num !== "EMPTY"` keeps
every roll number. -/
def getRollNumberRange (rollNumbers : List Int) : String :=
  let filteredNumbers := rollNumbers.filter (fun _ => true)
  match filteredNumbers with
  | [] => "EMPTY"
  | first :: rest =>
    toString first ++ "-" ++ toString ((first :: rest).getLast (List.cons_ne_nil first rest))

/-- The local variables of the classroom loop at the end of one iteration. -/
structure SeatLocals where
  classroom : SeatingClassroom
  thirdSemRollNumbers : List Int
  fifthSemRollNumbers : List Int
  thirdSemPaperCount : Nat
  fifthSemPaperCount : Nat
deriving DecidableEq, Repr

/-- An entry of the response, also the row written to `seat_arrangement`. -/
structure SeatRecord where
  classroom_name : String
  third_sem_roll_numbers : String
  fifth_sem_roll_numbers : String
  third_sem_paper_count : Nat
  fifth_sem_paper_count : Nat
deriving DecidableEq, Repr

/-- The object pushed to `allocation` at the end of an iteration. -/
def SeatLocals.record (l : SeatLocals) : SeatRecord :=
  { classroom_name := l.classroom.classroom_name
    third_sem_roll_numbers := getRollNumberRange l.thirdSemRollNumbers
    fifth_sem_roll_numbers := getRollNumberRange l.fifthSemRollNumbers
    third_sem_paper_count := l.thirdSemPaperCount
    fifth_sem_paper_count := l.fifthSemPaperCount }

/-- The classroom loop `classrooms.forEach` over the two division objects. -/
def allocateClassrooms : List SeatingClassroom → Divisions → Divisions → List SeatLocals
  | [], _, _ => []
  | classroom :: rest, thirdSemDivisions, fifthSemDivisions =>
    let benches := classroom.no_of_benches
    let third := drawTrack thirdSemDivisions benches
    let fifth := drawTrack fifthSemDivisions benches
    { classroom := classroom
      thirdSemRollNumbers := third.1.1
      fifthSemRollNumbers := fifth.1.1
      thirdSemPaperCount := third.1.2
      fifthSemPaperCount := fifth.1.2 } :: allocateClassrooms rest third.2 fifth.2

/-- The locals of every iteration of the seating handler, for the classrooms
in sequence order and the two pools in roll number order. -/
def seatingLocals (classrooms : List SeatingClassroom)
    (thirdSemStudents fifthSemStudents : List Student) : List SeatLocals :=
  allocateClassrooms classrooms (groupByDivision thirdSemStudents)
    (groupByDivision fifthSemStudents)

/-- The response of `GET /seating-arrangement`. -/
def seatingArrangement (classrooms : List SeatingClassroom)
    (thirdSemStudents fifthSemStudents : List Student) : List SeatRecord :=
  (seatingLocals classrooms thirdSemStudents fifthSemStudents).map SeatLocals.record

/-- One semester track of the classroom loop on its own: per classroom the
spliced students and the paper count. -/
def trackDraws : List Int → Divisions → List (List Int × Nat)
  | [], _ => []
  | benches :: rest, divisions =>
    (drawTrack divisions benches).1 :: trackDraws rest (drawTrack divisions benches).2

/-- The paper count field as the specification words it: the number drawn plus
2 when a student was drawn, no field otherwise. -/
def specPaperCount (drawn : List Int) : Option Nat :=
  if drawn.length > 0 then some (drawn.length + 2) else none

/-! ## Well-formed stores and sample data -/

/-- No teacher row has both semester flags set. -/
def DB.ExclusiveFlags (db : DB) : Prop :=
  ∀ t ∈ db.teachers, ¬ (t.teaches_sem_3 = true ∧ t.teaches_sem_5 = true)

instance (db : DB) : Decidable db.ExclusiveFlags := by
  unfold DB.ExclusiveFlags; infer_instance

/-! ## Sample stores -/

/-- A store that rejects the teacher query for every spliced text other than
`3` and `5`, as a store does for a text such as `7`, which makes the name of a
column `teachers` does not have. -/
def rejectOthers : OtherQueries :=
  fun _ _ _ => none

/-- A store that reads the spliced text `3 `, the column name followed by a
blank, as the column `teaches_sem_3`, and rejects the other texts. -/
def blankAfterThree : OtherQueries :=
  fun text db division =>
    if text = "3 " then some (availableTeachers db Teacher.teaches_sem_3 division) else none

/-- One classroom of capacity 2 and two teachers of division A, the second
with both semester flags set. -/
def dualFlagStore2 : DB :=
  { classrooms := [⟨1, "CSC313", 40, 2, 80⟩]
    teachers := [⟨1, "Asha", false, true, "A"⟩, ⟨2, "Bala", true, true, "A"⟩]
    allocations := [] }

/-- One classroom of capacity 3 and three teachers of division A, the third
with both semester flags set. -/
def dualFlagStore3 : DB :=
  { classrooms := [⟨1, "CLH208", 22, 3, 66⟩]
    teachers := [⟨1, "Asha", false, true, "A"⟩, ⟨2, "Bala", false, true, "A"⟩,
      ⟨3, "Chitra", true, true, "A"⟩]
    allocations := [] }

/-- Two classrooms, of capacity 2 and 3, and four teachers with one flag each. -/
def sampleStore : DB :=
  { classrooms := [⟨1, "CSC313", 40, 2, 80⟩, ⟨2, "CLH208", 22, 3, 66⟩]
    teachers := [⟨1, "Asha", true, false, "A"⟩, ⟨2, "Bala", false, true, "A"⟩,
      ⟨3, "Chitra", true, false, "A"⟩, ⟨4, "Dev", false, true, "B"⟩]
    allocations := [] }

/-- A sequence of batch and manual duty allocations on `sampleStore`. -/
def sampleCalls : List DutyCall :=
  [.allocateDivision (.str "3") "A", .manualAllocate (some 2) (some 1),
    .manualAllocate (some 4) (some 1), .allocateDivision (.str "5") "B",
    .allocateDivision (.str "3") "A"]

/-- Every band of the object holds a student; `groupByDivision` creates a band
with its first student, the loop deletes a band once it is drained. -/
def Divisions.BandsNonempty (divisions : Divisions) : Prop :=
  ∀ entry ∈ divisions, entry.2 ≠ []

/-- The classroom list of the example: bench counts 2 and 3. -/
def exampleClassrooms : List SeatingClassroom :=
  [⟨1, "CSC313", 2⟩, ⟨2, "CLAB-1", 3⟩]

/-- The 3rd-semester pool of the example: roll numbers 101, 102, 103, 201. -/
def examplePool : List Student :=
  [⟨101, "01FE21BCS101", "Asha"⟩, ⟨102, "01FE21BCS102", "Bala"⟩,
    ⟨103, "01FE21BCS103", "Chitra"⟩, ⟨201, "01FE21BCS201", "Dev"⟩]

/-- A pool of one band: roll numbers 101 to 104. -/
def oneBandPool : List Student :=
  [⟨101, "01FE21BCS101", "Asha"⟩, ⟨102, "01FE21BCS102", "Bala"⟩,
    ⟨103, "01FE21BCS103", "Chitra"⟩, ⟨104, "01FE21BCS104", "Dev"⟩]

/-- The locals of the second classroom of the example, with an empty
5th-semester pool. -/
def exampleSecondLocals : SeatLocals :=
  { classroom := ⟨2, "CLAB-1", 3⟩
    thirdSemRollNumbers := [103]
    fifthSemRollNumbers := []
    thirdSemPaperCount := 3
    fifthSemPaperCount := 0 }

/-- A classroom of capacity 4. -/
def lectureHall : Classroom :=
  ⟨3, "AUDI", 60, 4, 240⟩

/-- The object `divisions` of one track after the loop has gone through
classrooms with the given bench counts. -/
def divisionsAfter : List Int → Divisions → Divisions
  | [], divisions => divisions
  | benches :: rest, divisions => divisionsAfter rest (drawTrack divisions benches).2

/-- The keys of the object are non-negative and strictly ascending in the
order of `Object.keys`, and every band holds roll numbers of its key. -/
def Divisions.WellKeyed (divisions : Divisions) : Prop :=
  divisions.Pairwise (fun a b => a.1 < b.1) ∧ (∀ entry ∈ divisions, 0 ≤ entry.1) ∧
    ∀ entry ∈ divisions, ∀ r ∈ entry.2, Int.fdiv r 100 = entry.1

/-- What one classroom with `benches` benches draws on one track from the
object `divisions`: at most `benches` students, all of one division key, and
exactly the first `min benches (band size)` entries of the band of the lowest
key, nothing when no band is left. -/
def DrawnFromLowestBand (divisions : Divisions) (benches : Int) (drawn : List Int) : Prop :=
  drawn.length ≤ benches.toNat ∧ (∃ key : Int, ∀ r ∈ drawn, Int.fdiv r 100 = key) ∧
    match divisions with
    | [] => drawn = []
    | (key, band) :: rest =>
      drawn = band.take (min benches.toNat band.length) ∧
        (∀ r ∈ drawn, Int.fdiv r 100 = key) ∧ ∀ entry ∈ rest, key < entry.1

/-- A pool sorted by roll number with a negative roll number: -5 and 3. -/
def negativeRollPool : List Student :=
  [⟨-5, "01FE21BCS000", "Esha"⟩, ⟨3, "01FE21BCS003", "Farid"⟩]

/-! ## Teacher rows built by `initializeDatabase` -/

/-- An entry of `sem3Data` or `sem5Data`: a parsed line of a teacher list; the
`semester` is `parseInt` of the fourth field, absent when that is `NaN`. -/
structure TeacherListEntry where
  name : String
  division : String
  semester : Option Int
deriving DecidableEq, Repr

/-- A value of the map `teacherFirstOccurrence`. -/
structure FirstOccurrence where
  division : String
  teaches_sem_3 : Nat
  teaches_sem_5 : Nat
deriving DecidableEq, Repr

/-- An entry of `teacherValues`: `[name, teaches_sem_3, teaches_sem_5, division]`. -/
structure TeacherValue where
  name : String
  teaches_sem_3 : Nat
  teaches_sem_5 : Nat
  division : String
deriving DecidableEq, Repr

/-- The map `teacherFirstOccurrence`, its entries in insertion order, together
with the array `teacherValues`. -/
abbrev TeacherState := List (String × FirstOccurrence) × List TeacherValue

/-- One of the two loops `sem3Data.forEach` and `sem5Data.forEach`, which
differ in the two flags they write. -/
def addTeachers (teaches_sem_3 teaches_sem_5 : Nat) (data : List TeacherListEntry)
    (state : TeacherState) : TeacherState :=
  data.foldl
    (fun state teacher =>
      if state.1.any (fun entry => entry.1 == teacher.name) then state
      else
        (state.1 ++ [(teacher.name, ⟨teacher.division, teaches_sem_3, teaches_sem_5⟩)],
          state.2 ++ [⟨teacher.name, teaches_sem_3, teaches_sem_5, teacher.division⟩]))
    state

/-- The array `teacherValues` after both loops. -/
def teacherValues (sem3Data sem5Data : List TeacherListEntry) : List TeacherValue :=
  (addTeachers 0 1 sem5Data (addTeachers 1 0 sem3Data ([], []))).2

/-- The array `newTeacherValues`: the rows whose name the table does not hold. -/
def newTeacherValues (existingNames : List String) (sem3Data sem5Data : List TeacherListEntry) :
    List TeacherValue :=
  (teacherValues sem3Data sem5Data).filter (fun teacher => !existingNames.contains teacher.name)

/-- Two teacher lists that share the name Asha. -/
def sampleSem3Data : List TeacherListEntry :=
  [⟨"Asha", "A", some 3⟩, ⟨"Bala", "B", some 3⟩, ⟨"Asha", "C", some 3⟩]

/-- The semester-5 list of the sample. -/
def sampleSem5Data : List TeacherListEntry :=
  [⟨"Chitra", "A", some 5⟩, ⟨"Asha", "B", some 5⟩]

/-! ## `POST /mark` of the absentee routes -/

/-- An element of `attendanceData`, with the fields the handler reads. -/
structure AttendanceRecord where
  RollNumber : JsValue
  Division : JsValue
  Course : JsValue
  Semester : JsValue
  ISAExamNumber : JsValue
  Status : JsValue
deriving DecidableEq, Repr

/-- A row of `absentees`, with the columns the handler writes. -/
structure AbsenteeRow where
  RollNumber : JsValue
  Division : JsValue
  Course : JsValue
  Semester : JsValue
  ISAExamNumber : JsValue
  Status : JsValue
deriving DecidableEq, Repr

/-- The handler of `POST /mark`: the loop over `attendanceData` with its
`INSERT INTO absentees` for the records whose `Status === "Absent"`. -/
def markAttendance (absentees : List AbsenteeRow) (attendanceData : List AttendanceRecord) :
    Response × List AbsenteeRow :=
  (.success "Attendance marked successfully",
    attendanceData.foldl
      (fun table record =>
        if record.Status = .str "Absent" then
          table ++ [⟨record.RollNumber, record.Division, record.Course, record.Semester,
            record.ISAExamNumber, record.Status⟩]
        else table)
      absentees)

/-! ## `POST /assign` of the booklet routes -/

/-- Whether a request value passes a test `!value`: not missing, not the
empty string, not the number 0. -/
def JsValue.truthy : JsValue → Bool
  | .str s => s != ""
  | .num n => n != 0
  | .undefined => false

/-- The white space `parseInt` skips, by code point. -/
def isWhiteSpace (c : Char) : Bool :=
  c.toNat ∈ [9, 10, 11, 12, 13, 32, 160, 5760, 8232, 8233, 8239, 8287, 12288, 65279] ||
    (8192 ≤ c.toNat && c.toNat ≤ 8202)

/-- The value of a digit of `parseInt` in the given radix, if it is one. -/
def digitValue? (radix : Nat) (c : Char) : Option Nat :=
  let v :=
    if 48 ≤ c.toNat ∧ c.toNat ≤ 57 then c.toNat - 48
    else if 97 ≤ c.toNat ∧ c.toNat ≤ 122 then c.toNat - 87
    else if 65 ≤ c.toNat ∧ c.toNat ≤ 90 then c.toNat - 55
    else radix
  if v < radix then some v else none

/-- The leading digits of a text in the given radix. -/
def leadingDigits (radix : Nat) : List Char → List Nat
  | [] => []
  | c :: cs =>
    match digitValue? radix c with
    | some v => v :: leadingDigits radix cs
    | none => []

/-- The number `parseInt` reads after white space and sign: hexadecimal after
`0x` or `0X`, decimal otherwise, `NaN` (no value) without a digit. -/
def parseDigits (cs : List Char) : Option Nat :=
  let radix : Nat := match cs with
    | '0' :: 'x' :: _ => 16
    | '0' :: 'X' :: _ => 16
    | _ => 10
  let digits := leadingDigits radix (if radix = 16 then cs.drop 2 else cs)
  if digits = [] then none else some (digits.foldl (fun acc d => radix * acc + d) 0)

/-- The builtin `parseInt` with one argument, on a text. -/
def parseIntText (text : String) : Option Int :=
  match text.data.dropWhile isWhiteSpace with
  | '-' :: cs => (parseDigits cs).map (fun n => -(n : Int))
  | '+' :: cs => (parseDigits cs).map (fun n => (n : Int))
  | cs => (parseDigits cs).map (fun n => (n : Int))

/-- The bound `2 ^ 53`: every integer of magnitude up to it is a JavaScript
number with a decimal text, and below it the sum `roll + 1` is exact. -/
def maxExact : Int := 9007199254740992

/-- The most entries an array holds, `2 ^ 32 - 1`. -/
def arrayLimit : Nat := 4294967295

/-- Whether the embedding reads a request value exactly: a number is an
integer of magnitude at most `2 ^ 53`. -/
def JsValue.exact : JsValue → Bool
  | .num n => decide (-maxExact ≤ n ∧ n ≤ maxExact)
  | _ => true

/-- A result of `parseInt`, as far as it is followed: `NaN`, an integer of
magnitude at most `2 ^ 53`, which `parseInt` returns exactly, or a number
beyond, which `parseInt` may round and whose text may be in exponent form. -/
inductive JsNumber where
  | nan
  | int (value : Int)
  | beyond
deriving DecidableEq, Repr

/-- The number for the integer `parseInt` has read. -/
def JsNumber.ofInt (value : Int) : JsNumber :=
  if -maxExact ≤ value ∧ value ≤ maxExact then .int value else .beyond

/-- The builtin `parseInt` on a request value; a number is first turned into
its text. -/
def jsParseInt : JsValue → JsNumber
  | .str s =>
    match parseIntText s with
    | some value => JsNumber.ofInt value
    | none => .nan
  | .num n => JsNumber.ofInt n
  | .undefined => .nan

/-- The call `text.padStart(3, "0")`. -/
def padStart3 (text : String) : String :=
  String.mk (List.replicate (3 - text.length) '0' ++ text.data)

/-- The template literal of the booklet id for one roll number. -/
def bookletId (isaExamNumber division : JsValue) (roll : Int) : String :=
  "ISA-M-" ++ isaExamNumber.text ++ "-" ++ division.text ++ "-" ++ padStart3 (toString roll)

/-- The body of a request to `POST /assign`. -/
structure BookletRequest where
  semester : JsValue
  division : JsValue
  course : JsValue
  isaExamNumber : JsValue
  startRoll : JsValue
  endRoll : JsValue
deriving DecidableEq, Repr

/-- An entry of `booklets`, also a row of `Booklets`. -/
structure Booklet where
  booklet_id : String
  roll_number : Int
  division : JsValue
  course : JsValue
  semester : JsValue
  isa_exam_number : JsValue
deriving DecidableEq, Repr

/-- The entry the loop body pushes for one roll number. -/
def bookletEntry (req : BookletRequest) (roll : Int) : Booklet :=
  { booklet_id := bookletId req.isaExamNumber req.division roll
    roll_number := roll
    division := req.division
    course := req.course
    semester := req.semester
    isa_exam_number := req.isaExamNumber }

/-- The step `roll++` on a number of magnitude at most `2 ^ 53`: the sum
`2 ^ 53 + 1` is no JavaScript number and rounds to `2 ^ 53`. -/
def increment (roll : Int) : Int :=
  if roll = maxExact then maxExact else roll + 1

/-- The loop `for (...; roll <= parseInt(endRoll); roll++)` from the value
`roll` on, with `stop` the value of `parseInt(endRoll)`.  The first argument is
the number of entries the array `booklets` can still take, `arrayLimit` less
its length; a `push` on a full array raises a `RangeError`, and the loop then
ends without an array (no value). -/
def generationLoop (req : BookletRequest) (stop : Int) :
    Nat → Int → List Booklet → Option (List Booklet)
  | 0, roll, booklets => if roll ≤ stop then none else some booklets
  | room + 1, roll, booklets =>
    if roll ≤ stop then
      generationLoop req stop room (increment roll) (booklets ++ [bookletEntry req roll])
    else some booklets

/-- The array `booklets` after the generation loop `for (let roll =
parseInt(startRoll); roll <= parseInt(endRoll); roll++)`.  A comparison with
`NaN` is false, the loop body then never runs.  There is no value when a
`push` exceeds the array bound, and none when a bound lies beyond `2 ^ 53`,
where the loop is not followed. -/
def generateBooklets (req : BookletRequest) : Option (List Booklet) :=
  match jsParseInt req.startRoll, jsParseInt req.endRoll with
  | .nan, _ => some []
  | _, .nan => some []
  | .int start, .int stop => generationLoop req stop arrayLimit start []
  | _, _ => none

/-- What the handler of `POST /assign` sends back. -/
inductive BookletResponse where
  /-- Status 200 with body `{success: true, message, count}`. -/
  | assigned (message : String) (count : Nat)
  /-- Status `status` with body `{success: false, message}`. -/
  | rejected (status : Nat) (message : String)
deriving DecidableEq, Repr

/-- The handler of `POST /assign`: the response and the table `Booklets`
afterwards; the table is dropped and created anew once the fields are there.
There is no value when the loop yields no array. -/
def assignBooklets (table : List Booklet) (req : BookletRequest) :
    Option (BookletResponse × List Booklet) :=
  if !req.semester.truthy || !req.division.truthy || !req.course.truthy ||
      !req.isaExamNumber.truthy || !req.startRoll.truthy || !req.endRoll.truthy then
    some (.rejected 400 "All fields are required", table)
  else
    match generateBooklets req with
    | none => none
    | some booklets =>
      if booklets.length = 0 then some (.rejected 400 "No valid booklets to assign", [])
      else some (.assigned "Booklets assigned successfully" booklets.length, booklets)

/-- A request for the rolls 8 to 11 of division A. -/
def sampleBookletRequest : BookletRequest :=
  { semester := .str "3"
    division := .str "A"
    course := .str "DSA"
    isaExamNumber := .str "1"
    startRoll := .str "8"
    endRoll := .num 11 }

/-- A request whose two bounds are `2 ^ 53`. -/
def stalledBookletRequest : BookletRequest :=
  { semester := .str "3"
    division := .str "A"
    course := .str "DSA"
    isaExamNumber := .str "1"
    startRoll := .str "9007199254740992"
    endRoll := .str "9007199254740992" }

/-- The number a padded decimal text stands for: the digits read, a `-` after
the padding negating them. -/
def digitsNat : List Char → Nat
  | [] => 0
  | c :: cs => (c.toNat - 48) * 10 ^ cs.length + digitsNat cs

/-- The integer a text `padStart3 (toString roll)` stands for. -/
def paddedValue (cs : List Char) : Int :=
  match cs.dropWhile (fun c => c == '0') with
  | [] => 0
  | c :: rest => if c = '-' then -(digitsNat rest : Int) else (digitsNat (c :: rest) : Int)

/-- The bench counts can be cut into consecutive groups of classrooms, one
group for each band in the order of the bands, such that the benches of a
group sum to at least the size of its band; a bench count below 0 adds
nothing.  The first argument lists the sizes of the bands. -/
def GroupsFit : List Nat → List Int → Prop
  | [], _ => True
  | size :: rest, benches =>
    ∃ group tail : List Int,
      benches = group ++ tail ∧ size ≤ (group.map Int.toNat).sum ∧ GroupsFit rest tail

/-- The classroom list of two rooms of 3 benches. -/
def twoRoomsOfThree : List SeatingClassroom :=
  [⟨1, "CLH208", 3⟩, ⟨2, "CLH310", 3⟩]

/-! ## The duty allocator: queries and the walk -/

theorem find?_of_nodup_key {α : Type} (f : α → Nat) :
    ∀ (l : List α) (a : α), (l.map f).Nodup → a ∈ l →
      l.find? (fun x => decide (f x = f a)) = some a := by
  intro l
  induction l with
  | nil => intro a _ h; cases h
  | cons x xs ih =>
    intro a hnd ha
    rw [List.map_cons, List.nodup_cons] at hnd
    rcases List.mem_cons.1 ha with rfl | hmem
    · simp
    · have hne : f x ≠ f a := by
        intro h
        exact hnd.1 (h ▸ List.mem_map_of_mem f hmem)
      rw [List.find?_cons_of_neg _ (by simpa using hne)]
      exact ih a hnd.2 hmem

theorem walk_mem (semester : JsValue) (ts : List Teacher) :
    ∀ (rows : List ClassroomRow) (i : Nat) (p : Nat × Nat), p ∈ walk semester ts rows i →
      ∃ r ∈ rows, canAllocate semester r = true ∧ p.2 = r.classroom.id ∧
        ∃ t ∈ ts, p.1 = t.id := by
  intro rows
  induction rows with
  | nil => intro i p h; simp [walk] at h
  | cons r rest ih =>
    intro i p h
    unfold walk at h
    split at h
    · rename_i hc
      rcases List.mem_cons.1 h with rfl | h
      · exact ⟨r, List.mem_cons_self _ _, hc.1, rfl, _, List.get_mem _ _ _, rfl⟩
      · obtain ⟨r2, hr2, h2⟩ := ih _ p h
        exact ⟨r2, List.mem_cons_of_mem _ hr2, h2⟩
    · obtain ⟨r2, hr2, h2⟩ := ih _ p h
      exact ⟨r2, List.mem_cons_of_mem _ hr2, h2⟩

theorem walk_filter_classroom (semester : JsValue) (ts : List Teacher) (cid : Nat)
    (rc : ClassroomRow) :
    ∀ (rows : List ClassroomRow) (i : Nat),
      (rows.map (fun r => r.classroom.id)).Nodup →
      (∀ r ∈ rows, r.classroom.id = cid → r = rc) →
      (walk semester ts rows i).filter (fun p => decide (p.2 = cid)) = [] ∨
      ∃ t ∈ ts, (walk semester ts rows i).filter (fun p => decide (p.2 = cid)) = [(t.id, cid)] ∧
        canAllocate semester rc = true := by
  intro rows
  induction rows with
  | nil => intro i _ _; left; simp [walk]
  | cons r rest ih =>
    intro i hnd hrc
    rw [List.map_cons, List.nodup_cons] at hnd
    have hrest : ∀ r2 ∈ rest, r2.classroom.id = cid → r2 = rc :=
      fun r2 h2 => hrc r2 (List.mem_cons_of_mem _ h2)
    unfold walk
    split
    · rename_i hc
      by_cases hid : r.classroom.id = cid
      · right
        have hr : r = rc := hrc r (List.mem_cons_self _ _) hid
        have hnone : (walk semester ts rest (i + 1)).filter (fun p => decide (p.2 = cid)) = [] := by
          rw [List.filter_eq_nil_iff]
          intro p hp
          obtain ⟨r2, hr2, -, hp2, -⟩ := walk_mem semester ts rest (i + 1) p hp
          have : p.2 ≠ cid := by
            intro h
            apply hnd.1
            rw [hid, ← h, hp2]
            exact List.mem_map_of_mem (fun r => r.classroom.id) hr2
          simpa using this
        refine ⟨ts.get ⟨i, hc.2⟩, List.get_mem _ _ _, ?_, hr ▸ hc.1⟩
        rw [List.filter_cons_of_pos (by simpa using hid), hnone, hid]
      · rw [List.filter_cons_of_neg (by simpa using hid)]
        exact ih (i + 1) hnd.2 hrest
    · exact ih i hnd.2 hrest

theorem availableClassrooms_mem (db : DB) (r : ClassroomRow) (h : r ∈ availableClassrooms db) :
    ∃ c ∈ db.classrooms, r = classroomRow db c ∧
      (current_teachers db c.id : Int) < c.students_per_bench := by
  unfold availableClassrooms at h
  rw [(List.perm_insertionSort rowBefore _).mem_iff, List.mem_filter, List.mem_map] at h
  obtain ⟨⟨c, hc, rfl⟩, hlt⟩ := h
  exact ⟨c, hc, rfl, by simpa [classroomRow] using hlt⟩

theorem availableClassrooms_nodup (db : DB) (h : (db.classrooms.map Classroom.id).Nodup) :
    ((availableClassrooms db).map (fun r => r.classroom.id)).Nodup := by
  unfold availableClassrooms
  rw [((List.perm_insertionSort rowBefore _).map _).nodup_iff]
  refine List.Nodup.sublist ((List.filter_sublist _).map _) ?_
  rw [List.map_map]
  exact h

theorem availableTeachers_mem (db : DB) (column : Teacher → Bool) (division : String)
    (t : Teacher) (h : t ∈ availableTeachers db column division) :
    t ∈ db.teachers ∧ column t = true ∧ t.division = division ∧ isAllocated db t = false := by
  unfold availableTeachers at h
  rw [(List.perm_insertionSort _ _).mem_iff, List.mem_filter] at h
  obtain ⟨hm, hp⟩ := h
  simp only [Bool.and_eq_true, decide_eq_true_eq, Bool.not_eq_true'] at hp
  exact ⟨hm, hp.1.1, hp.1.2, hp.2⟩

/-- The pairs of one allocate-division call that name a given classroom: none,
or one pair with an available teacher, and then `canAllocate` held on the
snapshot row of the classroom, which was under capacity. -/
theorem pairings_filter_classroom (db : DB) (semester : JsValue) (column : Teacher → Bool)
    (division : String) (c : Classroom) (hpk : (db.classrooms.map Classroom.id).Nodup)
    (hc : c ∈ db.classrooms) :
    (pairings db semester column division).filter (fun p => decide (p.2 = c.id)) = [] ∨
    ∃ t ∈ availableTeachers db column division,
      (pairings db semester column division).filter (fun p => decide (p.2 = c.id)) = [(t.id, c.id)] ∧
        canAllocate semester (classroomRow db c) = true := by
  unfold pairings
  apply walk_filter_classroom semester _ c.id (classroomRow db c) _ 0
    (availableClassrooms_nodup db hpk)
  intro r hr hid
  obtain ⟨c2, hc2, rfl, -⟩ := availableClassrooms_mem db r hr
  have : c2 = c := List.inj_on_of_nodup_map hpk hc2 hc hid
  rw [this]

theorem canAllocate_true (semester : JsValue) (row : ClassroomRow)
    (h : canAllocate semester row = true) :
    (row.current_teachers : Int) < row.classroom.students_per_bench ∧
    ((row.classroom.students_per_bench = 2 ∧
        ((semester = .str "3" ∧ row.sem3_count < 1) ∨
          (semester = .str "5" ∧ row.sem5_count < 1))) ∨
      (row.classroom.students_per_bench = 3 ∧
        ((semester = .str "3" ∧ row.sem3_count < 2) ∨
          (semester = .str "5" ∧ row.sem5_count < 2)))) := by
  unfold canAllocate at h
  simp only at h
  split_ifs at h with h1 h2 h3
  · simp only [Bool.or_eq_true, Bool.and_eq_true, decide_eq_true_eq] at h
    exact ⟨h1, Or.inl ⟨h2, h⟩⟩
  · simp only [Bool.or_eq_true, Bool.and_eq_true, decide_eq_true_eq] at h
    exact ⟨h1, Or.inr ⟨h3, h⟩⟩

theorem current_teachers_insert (db : DB) (rows : List (Nat × Nat)) (cid : Nat) :
    current_teachers (insertAllocations db rows) cid =
      current_teachers db cid + (rows.filter (fun p => decide (p.2 = cid))).length := by
  unfold current_teachers allocationsOf insertAllocations
  simp only [List.filter_append, List.length_append, List.filter_map, List.length_map]
  rfl

theorem semCount_insert (db : DB) (flag : Teacher → Bool) (rows : List (Nat × Nat)) (cid : Nat) :
    semCount (insertAllocations db rows) flag cid =
      semCount db flag cid +
        ((rows.filter (fun p => decide (p.2 = cid))).filter
          (fun p => hasFlag db flag ⟨p.1, p.2⟩)).length := by
  unfold semCount allocationsOf insertAllocations
  simp only [List.filter_append, List.length_append, List.filter_map, List.length_map]
  rfl

theorem hasFlag_of_mem (db : DB) (flag : Teacher → Bool) (t : Teacher) (cid : Nat)
    (hpk : (db.teachers.map Teacher.id).Nodup) (ht : t ∈ db.teachers) :
    hasFlag db flag ⟨t.id, cid⟩ = flag t := by
  unfold hasFlag teacherOf
  rw [find?_of_nodup_key Teacher.id db.teachers t hpk ht]

theorem truthyId_some (x : Option Nat) (n : Nat) (h : truthyId x = some n) :
    x = some n ∧ n ≠ 0 := by
  unfold truthyId at h
  split at h
  · cases h; exact ⟨rfl, Nat.succ_ne_zero _⟩
  · cases h

/-- The two outcomes of manual-allocate on the store: unchanged, or one row
inserted after every check has passed. -/
theorem manualAllocate_cases (db : DB) (teacherId classroomId : Option Nat) :
    (manualAllocate db teacherId classroomId).2 = db ∨
    ∃ tid cid teacher c,
      teacherId = some tid ∧ classroomId = some cid ∧
      db.teachers.find? (fun t => decide (t.id = tid)) = some teacher ∧
      db.classrooms.find? (fun c => decide (c.id = cid)) = some c ∧
      (current_teachers db c.id : Int) < c.students_per_bench ∧
      (c.students_per_bench = 2 →
        (teacher.teaches_sem_3 = true → sem3_count db c.id = 0) ∧
        (teacher.teaches_sem_5 = true → sem5_count db c.id = 0)) ∧
      (c.students_per_bench = 3 →
        (teacher.teaches_sem_3 = true → sem3_count db c.id < 2) ∧
        (teacher.teaches_sem_5 = true → sem5_count db c.id < 2)) ∧
      (manualAllocate db teacherId classroomId).2 = insertAllocations db [(tid, cid)] := by
  unfold manualAllocate
  split
  · rename_i tid cid htid hcid
    split
    · left; rfl
    · rename_i teacher hteacher
      split
      · left; rfl
      · rename_i c hc
        simp only [classroomRow]
        split_ifs with h1 h2 h3 h4 h5
        · left; rfl
        · left; rfl
        · right
          refine ⟨tid, cid, teacher, c, (truthyId_some _ _ htid).1, (truthyId_some _ _ hcid).1,
            hteacher, hc, by omega, ?_, ?_, rfl⟩
          · intro _
            simp only [Bool.or_eq_true, Bool.and_eq_true, decide_eq_true_eq, not_or, not_and] at h3
            exact ⟨fun h => by have := h3.1 h; omega, fun h => by have := h3.2 h; omega⟩
          · intro h; omega
        · left; rfl
        · right
          refine ⟨tid, cid, teacher, c, (truthyId_some _ _ htid).1, (truthyId_some _ _ hcid).1,
            hteacher, hc, by omega, ?_, ?_, rfl⟩
          · intro h; omega
          · intro _
            simp only [Bool.or_eq_true, Bool.and_eq_true, decide_eq_true_eq, not_or, not_and] at h5
            exact ⟨fun h => by have := h5.1 h; omega, fun h => by have := h5.2 h; omega⟩
        · right
          refine ⟨tid, cid, teacher, c, (truthyId_some _ _ htid).1, (truthyId_some _ _ hcid).1,
            hteacher, hc, by omega, ?_, ?_, rfl⟩
          · intro h; omega
          · intro h; omega
  · left; rfl

theorem canAllocate_other_semester (semester : JsValue) (row : ClassroomRow)
    (h3 : semester ≠ .str "3") (h5 : semester ≠ .str "5") :
    canAllocate semester row = false := by
  unfold canAllocate
  simp only [h3, h5, decide_False, Bool.false_and, Bool.or_self]
  split_ifs <;> rfl

/-- The walk pushes no pair for a semester value other than the strings "3"
and "5", whatever the teachers and the classroom rows. -/
theorem walk_other_semester (semester : JsValue) (teachers : List Teacher)
    (h3 : semester ≠ .str "3") (h5 : semester ≠ .str "5") :
    ∀ (rows : List ClassroomRow) (i : Nat), walk semester teachers rows i = [] := by
  intro rows
  induction rows with
  | nil => intro i; rfl
  | cons r rest ih =>
    intro i
    unfold walk
    rw [dif_neg]
    · exact ih i
    · intro h
      rw [canAllocate_other_semester semester r h3 h5] at h
      exact Bool.false_ne_true h.1

theorem semesterColumn_none (semester : JsValue) (h : semesterColumn semester = none) :
    semester ≠ .str "3" ∧ semester ≠ .str "5" := by
  constructor <;> intro heq <;> rw [heq] at h <;> cases h

/-- The handler when the spliced text names a flag column. -/
theorem allocateDivision_of_column (others : OtherQueries) (db : DB) (semester : JsValue)
    (division : String) (column : Teacher → Bool)
    (hcol : semesterColumn semester = some column) :
    allocateDivision others db semester division =
      if (pairings db semester column division).length > 0 then
        (.success ("Created " ++
            toString (pairings db semester column division).length ++ " allocations"),
          insertAllocations db (pairings db semester column division))
      else
        (.failure 400
          "No valid allocations could be created. Check semester distribution rules.", db) := by
  unfold allocateDivision teacherQuery
  rw [hcol]
  rfl

/-- The handler when the spliced text names no flag column: the answer of the
store decides between the `catch` block and the 400 response. -/
theorem allocateDivision_of_other (others : OtherQueries) (db : DB) (semester : JsValue)
    (division : String) (hcol : semesterColumn semester = none) :
    allocateDivision others db semester division =
      match others semester.text db division with
      | none => (.storeError, db)
      | some _ =>
        (.failure 400
          "No valid allocations could be created. Check semester distribution rules.", db) := by
  obtain ⟨h3, h5⟩ := semesterColumn_none semester hcol
  unfold allocateDivision teacherQuery
  rw [hcol]
  simp only
  cases others semester.text db division with
  | none => rfl
  | some teachers =>
    simp only [walk_other_semester semester teachers h3 h5]
    rfl

/-- The two outcomes of allocate-division on the store: unchanged, or the
pairings inserted. -/
theorem allocateDivision_cases (others : OtherQueries) (db : DB) (semester : JsValue)
    (division : String) :
    (allocateDivision others db semester division).2 = db ∨
    ∃ column, semesterColumn semester = some column ∧
      (allocateDivision others db semester division).2 =
        insertAllocations db (pairings db semester column division) := by
  cases hcol : semesterColumn semester with
  | none =>
    left
    rw [allocateDivision_of_other others db semester division hcol]
    cases others semester.text db division <;> rfl
  | some column =>
    rw [allocateDivision_of_column others db semester division column hcol]
    split_ifs
    · right; exact ⟨column, rfl, rfl⟩
    · left; rfl

theorem semCount_insert_nil (db : DB) (flag : Teacher → Bool) (rows : List (Nat × Nat))
    (cid : Nat) (hf : rows.filter (fun p => decide (p.2 = cid)) = []) :
    semCount (insertAllocations db rows) flag cid = semCount db flag cid := by
  rw [semCount_insert, hf]; rfl

theorem semCount_insert_one (db : DB) (flag : Teacher → Bool) (rows : List (Nat × Nat))
    (cid : Nat) (t : Teacher) (hpk : (db.teachers.map Teacher.id).Nodup) (ht : t ∈ db.teachers)
    (hf : rows.filter (fun p => decide (p.2 = cid)) = [(t.id, cid)]) :
    semCount (insertAllocations db rows) flag cid =
      semCount db flag cid + (if flag t = true then 1 else 0) := by
  rw [semCount_insert, hf, List.filter_singleton, hasFlag_of_mem db flag t cid hpk ht]
  cases flag t <;> rfl

theorem semCount_insert_single (db : DB) (flag : Teacher → Bool) (tid cid c : Nat)
    (teacher : Teacher)
    (hfind : db.teachers.find? (fun t => decide (t.id = tid)) = some teacher) :
    semCount (insertAllocations db [(tid, cid)]) flag c =
      semCount db flag c + (if cid = c ∧ flag teacher = true then 1 else 0) := by
  rw [semCount_insert, List.filter_singleton]
  by_cases h : cid = c
  · have hflag : hasFlag db flag ⟨tid, cid⟩ = flag teacher := by
      unfold hasFlag teacherOf
      rw [hfind]
    simp only [h, decide_True, true_and, cond_true] at hflag ⊢
    rw [List.filter_singleton, hflag]
    cases flag teacher <;> rfl
  · simp [h]

theorem current_teachers_insert_single (db : DB) (tid cid c : Nat) :
    current_teachers (insertAllocations db [(tid, cid)]) c =
      current_teachers db c + (if cid = c then 1 else 0) := by
  rw [current_teachers_insert, List.filter_singleton]
  by_cases h : cid = c <;> simp [h]

theorem semesterColumn_three : semesterColumn (.str "3") = some Teacher.teaches_sem_3 := by
  rfl

theorem semesterColumn_five : semesterColumn (.str "5") = some Teacher.teaches_sem_5 := by
  rfl

theorem allocateDivision_tables (others : OtherQueries) (db : DB) (semester : JsValue)
    (division : String) :
    (allocateDivision others db semester division).2.classrooms = db.classrooms ∧
    (allocateDivision others db semester division).2.teachers = db.teachers := by
  rcases allocateDivision_cases others db semester division with h | ⟨column, -, h⟩ <;>
    rw [h] <;>
    exact ⟨rfl, rfl⟩

theorem manualAllocate_tables (db : DB) (teacherId classroomId : Option Nat) :
    (manualAllocate db teacherId classroomId).2.classrooms = db.classrooms ∧
    (manualAllocate db teacherId classroomId).2.teachers = db.teachers := by
  rcases manualAllocate_cases db teacherId classroomId with h | ⟨_, _, _, _, -, -, -, -, -, -, -, h⟩ <;>
    rw [h] <;> exact ⟨rfl, rfl⟩

theorem apply_tables (others : OtherQueries) (db : DB) (call : DutyCall) :
    (call.apply others db).classrooms = db.classrooms ∧
      (call.apply others db).teachers = db.teachers := by
  cases call with
  | allocateDivision s d => exact allocateDivision_tables others db s d
  | manualAllocate t c => exact manualAllocate_tables db t c

theorem runCalls_tables (others : OtherQueries) (calls : List DutyCall) :
    ∀ db : DB, (runCalls others db calls).classrooms = db.classrooms ∧
      (runCalls others db calls).teachers = db.teachers := by
  induction calls with
  | nil => intro db; exact ⟨rfl, rfl⟩
  | cons call rest ih =>
    intro db
    have h1 := apply_tables others db call
    have h2 := ih (call.apply others db)
    exact ⟨h2.1.trans h1.1, h2.2.trans h1.2⟩

/-- The classroom a manual allocation found by id is the classroom of that id. -/
theorem find?_classroom_eq (db : DB) (c c2 : Classroom) (cid : Nat)
    (hpk : (db.classrooms.map Classroom.id).Nodup) (hc : c ∈ db.classrooms)
    (hfind : db.classrooms.find? (fun c => decide (c.id = cid)) = some c2) (hid : cid = c.id) :
    c2 = c := by
  have hmem : c2 ∈ db.classrooms := List.mem_of_find?_eq_some hfind
  have hid2 : c2.id = cid := by simpa using List.find?_some hfind
  exact List.inj_on_of_nodup_map hpk hmem hc (hid2.trans hid)

theorem allocateDivision_current_le (others : OtherQueries) (db : DB) (semester : JsValue)
    (division : String) (c : Classroom) (hpk : (db.classrooms.map Classroom.id).Nodup) (hc : c ∈ db.classrooms)
    (h : (current_teachers db c.id : Int) ≤ c.students_per_bench) :
    (current_teachers (allocateDivision others db semester division).2 c.id : Int) ≤
      c.students_per_bench := by
  rcases allocateDivision_cases others db semester division with he | ⟨column, -, he⟩
  · rw [he]; exact h
  · rw [he, current_teachers_insert]
    rcases pairings_filter_classroom db semester column division c hpk hc with hf | ⟨t, -, hf, hcan⟩
    · rw [hf]; simpa using h
    · rw [hf]
      have := (canAllocate_true _ _ hcan).1
      simp only [classroomRow] at this
      simp only [List.length_singleton]
      omega

theorem manualAllocate_current_le (db : DB) (teacherId classroomId : Option Nat)
    (c : Classroom) (hpk : (db.classrooms.map Classroom.id).Nodup) (hc : c ∈ db.classrooms)
    (h : (current_teachers db c.id : Int) ≤ c.students_per_bench) :
    (current_teachers (manualAllocate db teacherId classroomId).2 c.id : Int) ≤
      c.students_per_bench := by
  rcases manualAllocate_cases db teacherId classroomId with he |
    ⟨tid, cid, teacher, c2, -, -, -, hfind, hlt, -, -, he⟩
  · rw [he]; exact h
  · rw [he, current_teachers_insert_single]
    by_cases hid : cid = c.id
    · have := find?_classroom_eq db c c2 cid hpk hc hfind hid
      subst this
      simp only [hid, if_true]
      omega
    · simp only [hid, if_false]
      simpa using h

theorem deleteClassroomAllocations_current (db : DB) (classroomId cid : Nat) :
    current_teachers (deleteClassroomAllocations db classroomId).2 cid =
      if cid = classroomId then 0 else current_teachers db cid := by
  unfold deleteClassroomAllocations current_teachers allocationsOf
  simp only [List.filter_filter]
  by_cases h : cid = classroomId
  · subst h
    simp
  · simp only [h, if_false]
    congr 1
    apply List.filter_congr
    intro a _
    by_cases ha : a.classroom_id = cid
    · simp [ha, h]
    · simp [ha]

/-- One allocate-division call keeps both semester counts of a classroom of
capacity 2 (bound 1) or 3 (bound 2) within the bound, when no teacher has both
flags. -/
theorem allocateDivision_sem_le (others : OtherQueries) (db : DB) (semester : JsValue)
    (division : String) (c : Classroom) (k : Nat) (hpk : db.PrimaryKeys) (hex : db.ExclusiveFlags)
    (hc : c ∈ db.classrooms)
    (hk : (c.students_per_bench = 2 ∧ k = 1) ∨ (c.students_per_bench = 3 ∧ k = 2))
    (h3 : sem3_count db c.id ≤ k) (h5 : sem5_count db c.id ≤ k) :
    sem3_count (allocateDivision others db semester division).2 c.id ≤ k ∧
    sem5_count (allocateDivision others db semester division).2 c.id ≤ k := by
  rcases allocateDivision_cases others db semester division with he | ⟨column, hcol, he⟩
  · rw [he]; exact ⟨h3, h5⟩
  · rw [he]
    unfold sem3_count sem5_count at *
    rcases pairings_filter_classroom db semester column division c hpk.1 hc with
      hf | ⟨t, ht, hf, hcan⟩
    · rw [semCount_insert_nil _ _ _ _ hf, semCount_insert_nil _ _ _ _ hf]
      exact ⟨h3, h5⟩
    · obtain ⟨htm, hflag, -, -⟩ := availableTeachers_mem db column division t ht
      rw [semCount_insert_one _ _ _ _ t hpk.2 htm hf, semCount_insert_one _ _ _ _ t hpk.2 htm hf]
      have hcan2 := (canAllocate_true _ _ hcan).2
      simp only [classroomRow, sem3_count, sem5_count] at hcan2
      have hx := hex t htm
      have hsem : (semester = .str "3" ∧ semCount db Teacher.teaches_sem_3 c.id < k) ∨
          (semester = .str "5" ∧ semCount db Teacher.teaches_sem_5 c.id < k) := by
        rcases hk with ⟨hs, hk⟩ | ⟨hs, hk⟩ <;> rcases hcan2 with ⟨hs2, h⟩ | ⟨hs2, h⟩
        · rw [hk]; exact h
        · omega
        · omega
        · rw [hk]; exact h
      rcases hsem with ⟨hs, hlt⟩ | ⟨hs, hlt⟩
      · rw [hs, semesterColumn_three] at hcol
        cases hcol
        have h5f : t.teaches_sem_5 = false := by
          cases h : t.teaches_sem_5
          · rfl
          · exact absurd ⟨hflag, h⟩ hx
        rw [hflag, h5f]
        simp only [if_true]
        exact ⟨by omega, by simpa using h5⟩
      · rw [hs, semesterColumn_five] at hcol
        cases hcol
        have h3f : t.teaches_sem_3 = false := by
          cases h : t.teaches_sem_3
          · rfl
          · exact absurd ⟨h, hflag⟩ hx
        rw [hflag, h3f]
        simp only [if_true]
        exact ⟨by simpa using h3, by omega⟩

/-- One manual-allocate call keeps both semester counts of a classroom of
capacity 2 (bound 1) or 3 (bound 2) within the bound. -/
theorem manualAllocate_sem_le (db : DB) (teacherId classroomId : Option Nat)
    (c : Classroom) (k : Nat) (hpk : db.PrimaryKeys) (hc : c ∈ db.classrooms)
    (hk : (c.students_per_bench = 2 ∧ k = 1) ∨ (c.students_per_bench = 3 ∧ k = 2))
    (h3 : sem3_count db c.id ≤ k) (h5 : sem5_count db c.id ≤ k) :
    sem3_count (manualAllocate db teacherId classroomId).2 c.id ≤ k ∧
    sem5_count (manualAllocate db teacherId classroomId).2 c.id ≤ k := by
  rcases manualAllocate_cases db teacherId classroomId with he |
    ⟨tid, cid, teacher, c2, -, -, hteacher, hfind, -, hr2, hr3, he⟩
  · rw [he]; exact ⟨h3, h5⟩
  · rw [he]
    by_cases hid : cid = c.id
    · have := find?_classroom_eq db c c2 cid hpk.1 hc hfind hid
      subst this
      unfold sem3_count sem5_count at *
      rw [semCount_insert_single _ _ _ _ _ teacher hteacher,
        semCount_insert_single _ _ _ _ _ teacher hteacher]
      simp only [hid, true_and]
      rcases hk with ⟨hs, hk⟩ | ⟨hs, hk⟩
      · have := hr2 hs
        constructor
        · split_ifs with hf
          · have := this.1 hf; omega
          · omega
        · split_ifs with hf
          · have := this.2 hf; omega
          · omega
      · have := hr3 hs
        constructor
        · split_ifs with hf
          · have := this.1 hf; omega
          · omega
        · split_ifs with hf
          · have := this.2 hf; omega
          · omega
    · unfold sem3_count sem5_count at *
      rw [semCount_insert_single _ _ _ _ _ teacher hteacher,
        semCount_insert_single _ _ _ _ _ teacher hteacher]
      simp only [hid, false_and, if_false]
      exact ⟨h3, h5⟩

theorem current_teachers_of_empty (db : DB) (h : db.allocations = []) (cid : Nat) :
    current_teachers db cid = 0 := by
  simp [current_teachers, allocationsOf, h]

theorem semCount_of_empty (db : DB) (h : db.allocations = []) (flag : Teacher → Bool)
    (cid : Nat) : semCount db flag cid = 0 := by
  simp [semCount, allocationsOf, h]

theorem apply_current_le (others : OtherQueries) (db : DB) (call : DutyCall) (c : Classroom)
    (hpk : (db.classrooms.map Classroom.id).Nodup) (hc : c ∈ db.classrooms)
    (h : (current_teachers db c.id : Int) ≤ c.students_per_bench) :
    (current_teachers (call.apply others db) c.id : Int) ≤ c.students_per_bench := by
  cases call with
  | allocateDivision s d => exact allocateDivision_current_le others db s d c hpk hc h
  | manualAllocate t k => exact manualAllocate_current_le db t k c hpk hc h

theorem runCalls_current_le (others : OtherQueries) (calls : List DutyCall) :
    ∀ (db : DB) (c : Classroom), (db.classrooms.map Classroom.id).Nodup → c ∈ db.classrooms →
      (current_teachers db c.id : Int) ≤ c.students_per_bench →
      (current_teachers (runCalls others db calls) c.id : Int) ≤ c.students_per_bench := by
  induction calls with
  | nil => intro db c _ _ h; exact h
  | cons call rest ih =>
    intro db c hpk hc h
    have ht := apply_tables others db call
    exact ih (call.apply others db) c (ht.1 ▸ hpk) (ht.1 ▸ hc)
      (apply_current_le others db call c hpk hc h)

theorem apply_sem_le (others : OtherQueries) (db : DB) (call : DutyCall) (c : Classroom)
    (k : Nat)
    (hpk : db.PrimaryKeys) (hex : db.ExclusiveFlags) (hc : c ∈ db.classrooms)
    (hk : (c.students_per_bench = 2 ∧ k = 1) ∨ (c.students_per_bench = 3 ∧ k = 2))
    (h3 : sem3_count db c.id ≤ k) (h5 : sem5_count db c.id ≤ k) :
    sem3_count (call.apply others db) c.id ≤ k ∧
      sem5_count (call.apply others db) c.id ≤ k := by
  cases call with
  | allocateDivision s d => exact allocateDivision_sem_le others db s d c k hpk hex hc hk h3 h5
  | manualAllocate t j => exact manualAllocate_sem_le db t j c k hpk hc hk h3 h5

theorem runCalls_sem_le (others : OtherQueries) (calls : List DutyCall) :
    ∀ (db : DB) (c : Classroom) (k : Nat), db.PrimaryKeys → db.ExclusiveFlags →
      c ∈ db.classrooms →
      ((c.students_per_bench = 2 ∧ k = 1) ∨ (c.students_per_bench = 3 ∧ k = 2)) →
      sem3_count db c.id ≤ k → sem5_count db c.id ≤ k →
      sem3_count (runCalls others db calls) c.id ≤ k ∧
        sem5_count (runCalls others db calls) c.id ≤ k := by
  induction calls with
  | nil => intro db c k _ _ _ _ h3 h5; exact ⟨h3, h5⟩
  | cons call rest ih =>
    intro db c k hpk hex hc hk h3 h5
    have ht := apply_tables others db call
    have hstep := apply_sem_le others db call c k hpk hex hc hk h3 h5
    have hpk2 : (call.apply others db).PrimaryKeys := by
      unfold DB.PrimaryKeys; rw [ht.1, ht.2]; exact hpk
    have hex2 : (call.apply others db).ExclusiveFlags := by
      unfold DB.ExclusiveFlags; rw [ht.2]; exact hex
    exact ih (call.apply others db) c k hpk2 hex2 (ht.1 ▸ hc) hk hstep.1 hstep.2

/-- C1, failing input: on a store whose second teacher, Bala, has both
semester flags, allocate-division for semester 5 and then for semester 3 pairs
Asha and then Bala into the one classroom of capacity 2, which ends with two
allocated teachers with `teaches_sem_5`; the walk tested `sem3_count` only.
In the same state manual-allocate turns the same teacher away from the same
room with the rule of one teacher per semester. -/
theorem c1_batch_pairs_second_sem5_teacher :
    dualFlagStore2.PrimaryKeys ∧ dualFlagStore2.allocations = [] ∧
    (⟨1, "CSC313", 40, 2, 80⟩ : Classroom) ∈ dualFlagStore2.classrooms ∧
    (runCalls rejectOthers dualFlagStore2 [.allocateDivision (.str "5") "A"]).allocations =
      [⟨1, 1⟩] ∧
    canAllocate (.str "3")
      (classroomRow (runCalls rejectOthers dualFlagStore2 [.allocateDivision (.str "5") "A"])
        ⟨1, "CSC313", 40, 2, 80⟩) = true ∧
    (runCalls rejectOthers dualFlagStore2
      [.allocateDivision (.str "5") "A", .allocateDivision (.str "3") "A"]).allocations =
      [⟨1, 1⟩, ⟨2, 1⟩] ∧
    sem5_count (runCalls rejectOthers dualFlagStore2
      [.allocateDivision (.str "5") "A", .allocateDivision (.str "3") "A"]) 1 = 2 ∧
    manualAllocate (runCalls rejectOthers dualFlagStore2 [.allocateDivision (.str "5") "A"])
        (some 2) (some 1) =
      (.failure 400
        "For 2-capacity rooms, cannot have more than one teacher from the same semester",
        runCalls rejectOthers dualFlagStore2 [.allocateDivision (.str "5") "A"]) := by
  decide

/-- C2, failing input: on a store whose third teacher, Chitra, has both
semester flags, allocate-division for semester 5 twice and then for semester 3
pairs Asha, Bala and then Chitra into the one classroom of capacity 3, which
ends with three allocated teachers with `teaches_sem_5`; the walk tested
`sem3_count` only.  In the same state manual-allocate turns the same teacher
away from the same room with the rule of two teachers per semester. -/
theorem c2_batch_pairs_third_sem5_teacher :
    dualFlagStore3.PrimaryKeys ∧ dualFlagStore3.allocations = [] ∧
    (⟨1, "CLH208", 22, 3, 66⟩ : Classroom) ∈ dualFlagStore3.classrooms ∧
    (runCalls rejectOthers dualFlagStore3
      [.allocateDivision (.str "5") "A", .allocateDivision (.str "5") "A"]).allocations =
      [⟨1, 1⟩, ⟨2, 1⟩] ∧
    canAllocate (.str "3")
      (classroomRow (runCalls rejectOthers dualFlagStore3
        [.allocateDivision (.str "5") "A", .allocateDivision (.str "5") "A"])
        ⟨1, "CLH208", 22, 3, 66⟩) = true ∧
    (runCalls rejectOthers dualFlagStore3
      [.allocateDivision (.str "5") "A", .allocateDivision (.str "5") "A",
        .allocateDivision (.str "3") "A"]).allocations = [⟨1, 1⟩, ⟨2, 1⟩, ⟨3, 1⟩] ∧
    sem5_count (runCalls rejectOthers dualFlagStore3
      [.allocateDivision (.str "5") "A", .allocateDivision (.str "5") "A",
        .allocateDivision (.str "3") "A"]) 1 = 3 ∧
    manualAllocate (runCalls rejectOthers dualFlagStore3
        [.allocateDivision (.str "5") "A", .allocateDivision (.str "5") "A"])
        (some 3) (some 1) =
      (.failure 400
        "For 3-capacity rooms, cannot have more than two teachers from the same semester",
        runCalls rejectOthers dualFlagStore3
          [.allocateDivision (.str "5") "A", .allocateDivision (.str "5") "A"]) := by
  decide

/-- The semester bounds on the stores the walk is sound for: from an empty
allocations table, when no teacher row has both semester flags set, a
classroom of capacity 2 keeps at most 1 allocated teacher per semester flag
and a classroom of capacity 3 at most 2, and the total stays within the
capacity, after any sequence of allocate-division and manual-allocate calls. -/
theorem semester_bounds_with_exclusive_flags (others : OtherQueries) (db : DB)
    (calls : List DutyCall) (c : Classroom) (k : Nat)
    (hpk : db.PrimaryKeys) (hex : db.ExclusiveFlags) (hempty : db.allocations = [])
    (hc : c ∈ db.classrooms)
    (hk : (c.students_per_bench = 2 ∧ k = 1) ∨ (c.students_per_bench = 3 ∧ k = 2)) :
    (current_teachers (runCalls others db calls) c.id : Int) ≤ c.students_per_bench ∧
    sem3_count (runCalls others db calls) c.id ≤ k ∧
    sem5_count (runCalls others db calls) c.id ≤ k := by
  refine ⟨?_, ?_⟩
  · apply runCalls_current_le others calls db c hpk.1 hc
    rw [current_teachers_of_empty db hempty]
    rcases hk with ⟨h, -⟩ | ⟨h, -⟩ <;> rw [h] <;> decide
  · exact runCalls_sem_le others calls db c k hpk hex hc hk
      (by unfold sem3_count; rw [semCount_of_empty db hempty]; exact Nat.zero_le _)
      (by unfold sem5_count; rw [semCount_of_empty db hempty]; exact Nat.zero_le _)

/-- C3: for a classroom of any `students_per_bench`, when the number of its
allocation rows is at most `students_per_bench` before an allocate-division,
manual-allocate or delete-by-classroom call, it is still at most
`students_per_bench` after the call. -/
theorem c3_capacity_preserved (db : DB) (c : Classroom)
    (hpk : (db.classrooms.map Classroom.id).Nodup) (hc : c ∈ db.classrooms)
    (h : (current_teachers db c.id : Int) ≤ c.students_per_bench) :
    (∀ (others : OtherQueries) (semester : JsValue) (division : String),
      (current_teachers (allocateDivision others db semester division).2 c.id : Int) ≤
        c.students_per_bench) ∧
    (∀ teacherId classroomId,
      (current_teachers (manualAllocate db teacherId classroomId).2 c.id : Int) ≤
        c.students_per_bench) ∧
    (∀ classroomId,
      (current_teachers (deleteClassroomAllocations db classroomId).2 c.id : Int) ≤
        c.students_per_bench) := by
  refine ⟨fun others s d => allocateDivision_current_le others db s d c hpk hc h,
    fun t k => manualAllocate_current_le db t k c hpk hc h, fun k => ?_⟩
  rw [deleteClassroomAllocations_current]
  split_ifs
  · have : (0 : Int) ≤ (current_teachers db c.id : Int) := Int.ofNat_nonneg _
    exact_mod_cast le_trans this h
  · exact h

/-- C3 on `sampleStore` after `sampleCalls`, for the classroom of capacity 2. -/
theorem c3_capacity_preserved_witness :
    (∀ (others : OtherQueries) (semester : JsValue) (division : String),
      (current_teachers (allocateDivision others (runCalls rejectOthers sampleStore sampleCalls)
        semester division).2 1 : Int) ≤ 2) ∧
    (∀ teacherId classroomId,
      (current_teachers (manualAllocate (runCalls rejectOthers sampleStore sampleCalls)
        teacherId classroomId).2 1 : Int) ≤ 2) ∧
    (∀ classroomId,
      (current_teachers
        (deleteClassroomAllocations (runCalls rejectOthers sampleStore sampleCalls)
          classroomId).2 1 : Int) ≤ 2) :=
  c3_capacity_preserved (runCalls rejectOthers sampleStore sampleCalls)
    ⟨1, "CSC313", 40, 2, 80⟩ (by decide) (by decide) (by decide)

/-- C4, failing input: on `sampleStore`, two manual-allocate calls for teacher 1,
into classroom 1 and into classroom 2, both succeed and leave two allocation
rows with `teacher_id = 1`. -/
theorem c4_manual_allocates_teacher_twice :
    sampleStore.PrimaryKeys ∧ sampleStore.allocations = [] ∧
    (manualAllocate sampleStore (some 1) (some 1)).1 =
      .success "Teacher allocated successfully" ∧
    (manualAllocate (manualAllocate sampleStore (some 1) (some 1)).2 (some 1) (some 2)).1 =
      .success "Teacher allocated successfully" ∧
    (runCalls rejectOthers sampleStore
      [.manualAllocate (some 1) (some 1), .manualAllocate (some 1) (some 2)]).allocations =
      [⟨1, 1⟩, ⟨1, 2⟩] := by
  decide

theorem truthyId_of_ne_zero (n : Nat) (h : n ≠ 0) : truthyId (some n) = some n := by
  cases n with
  | zero => exact absurd rfl h
  | succ m => rfl

/-- C8: for an existing teacher and an existing classroom whose
`current_teachers` is at least `students_per_bench`, manual-allocate answers
400 "Classroom is already full" and leaves the store as it was. -/
theorem c8_full_classroom_rejected (db : DB) (t : Teacher) (c : Classroom)
    (hpk : db.PrimaryKeys) (ht : t ∈ db.teachers) (hc : c ∈ db.classrooms)
    (htid : t.id ≠ 0) (hcid : c.id ≠ 0)
    (hfull : c.students_per_bench ≤ (current_teachers db c.id : Int)) :
    manualAllocate db (some t.id) (some c.id) =
      (.failure 400 "Classroom is already full", db) := by
  unfold manualAllocate
  rw [truthyId_of_ne_zero _ htid, truthyId_of_ne_zero _ hcid]
  simp only
  rw [find?_of_nodup_key Teacher.id db.teachers t hpk.2 ht,
    find?_of_nodup_key Classroom.id db.classrooms c hpk.1 hc]
  simp only [classroomRow]
  rw [if_pos (by omega)]

/-- C8 on `sampleStore` after `sampleCalls`: classroom 1 is full, teacher 4 is
turned away. -/
theorem c8_full_classroom_rejected_witness :
    (2 : Int) ≤ (current_teachers (runCalls rejectOthers sampleStore sampleCalls) 1 : Int) ∧
    manualAllocate (runCalls rejectOthers sampleStore sampleCalls) (some 4) (some 1) =
      (.failure 400 "Classroom is already full", runCalls rejectOthers sampleStore sampleCalls) :=
  ⟨by decide,
    c8_full_classroom_rejected (runCalls rejectOthers sampleStore sampleCalls)
      ⟨4, "Dev", false, true, "B"⟩ ⟨1, "CSC313", 40, 2, 80⟩
      (by decide) (by decide) (by decide) (by decide) (by decide) (by decide)⟩

theorem isAllocated_false (db : DB) (t : Teacher) (h : isAllocated db t = false) :
    ∀ a ∈ db.allocations, a.teacher_id ≠ t.id := by
  intro a ha heq
  unfold isAllocated at h
  rw [List.any_eq_false] at h
  exact h a ha (by simpa using heq)

/-- C9: every teacher id in the pairings of an allocate-division call is the
id of a teacher row that had no allocation row before the call, has the flag
`teaches_sem_<semester>` set and has the requested division; and a second
identical call pairs no teacher the first call paired. -/
theorem c9_pairings_take_unallocated_teachers (others : OtherQueries) (db : DB)
    (semester : JsValue) (division : String) (column : Teacher → Bool)
    (hcol : semesterColumn semester = some column) :
    (∀ p ∈ pairings db semester column division,
      ∃ t ∈ db.teachers, t.id = p.1 ∧ (∀ a ∈ db.allocations, a.teacher_id ≠ t.id) ∧
        column t = true ∧ t.division = division) ∧
    (∀ p ∈ pairings (allocateDivision others db semester division).2 semester column division,
      ∀ q ∈ pairings db semester column division, p.1 ≠ q.1) := by
  have first : ∀ (db : DB), ∀ p ∈ pairings db semester column division,
      ∃ t ∈ db.teachers, t.id = p.1 ∧ (∀ a ∈ db.allocations, a.teacher_id ≠ t.id) ∧
        column t = true ∧ t.division = division := by
    intro db p hp
    obtain ⟨-, -, -, -, t, ht, hid⟩ := walk_mem semester _ _ 0 p hp
    obtain ⟨hm, hflag, hdiv, hfree⟩ := availableTeachers_mem db column division t ht
    exact ⟨t, hm, hid.symm, isAllocated_false db t hfree, hflag, hdiv⟩
  refine ⟨first db, ?_⟩
  intro p hp q hq heq
  obtain ⟨t, -, hid, hfree, -, -⟩ := first _ p hp
  rw [allocateDivision_of_column others db semester division column hcol] at hfree
  split_ifs at hfree with hlen
  · refine hfree ⟨q.1, q.2⟩ ?_ (by rw [hid, heq])
    simp only [insertAllocations, List.mem_append, List.mem_map]
    exact Or.inr ⟨q, hq, rfl⟩
  · have : pairings db semester column division = [] := by
      rw [← List.length_eq_zero]; omega
    rw [this] at hq
    cases hq

/-- C9 on `sampleStore`, semester "3", division "A". -/
theorem c9_pairings_take_unallocated_teachers_witness :
    (∀ p ∈ pairings sampleStore (.str "3") Teacher.teaches_sem_3 "A",
      ∃ t ∈ sampleStore.teachers, t.id = p.1 ∧
        (∀ a ∈ sampleStore.allocations, a.teacher_id ≠ t.id) ∧
        t.teaches_sem_3 = true ∧ t.division = "A") ∧
    (∀ p ∈ pairings (allocateDivision rejectOthers sampleStore (.str "3") "A").2 (.str "3")
        Teacher.teaches_sem_3 "A",
      ∀ q ∈ pairings sampleStore (.str "3") Teacher.teaches_sem_3 "A", p.1 ≠ q.1) :=
  c9_pairings_take_unallocated_teachers rejectOthers sampleStore (.str "3") "A"
    Teacher.teaches_sem_3 rfl

/-- C10: for a classroom of capacity 2 or 3 that is under capacity and a
teacher with exactly one semester flag set, manual-allocate accepts the
teacher exactly when `canAllocate` of the batch allocator is true for the
semester of the teacher on the same `current_teachers`, `sem3_count` and
`sem5_count`. -/
theorem c10_manual_agrees_with_canAllocate (db : DB) (t : Teacher) (c : Classroom)
    (semester : JsValue)
    (hpk : db.PrimaryKeys) (ht : t ∈ db.teachers) (hc : c ∈ db.classrooms)
    (htid : t.id ≠ 0) (hcid : c.id ≠ 0)
    (hcap : c.students_per_bench = 2 ∨ c.students_per_bench = 3)
    (hunder : (current_teachers db c.id : Int) < c.students_per_bench)
    (hsem : (t.teaches_sem_3 = true ∧ t.teaches_sem_5 = false ∧ semester = .str "3") ∨
      (t.teaches_sem_3 = false ∧ t.teaches_sem_5 = true ∧ semester = .str "5")) :
    manualAllocate db (some t.id) (some c.id) =
        (.success "Teacher allocated successfully", insertAllocations db [(t.id, c.id)]) ↔
      canAllocate semester (classroomRow db c) = true := by
  unfold manualAllocate canAllocate
  rw [truthyId_of_ne_zero _ htid, truthyId_of_ne_zero _ hcid]
  simp only
  rw [find?_of_nodup_key Teacher.id db.teachers t hpk.2 ht,
    find?_of_nodup_key Classroom.id db.classrooms c hpk.1 hc]
  simp only [classroomRow]
  rw [if_neg (by omega), if_pos hunder]
  rcases hcap with h2 | h3
  · rw [if_pos h2, if_pos h2]
    rcases hsem with ⟨f3, f5, hs⟩ | ⟨f3, f5, hs⟩
    · subst hs
      by_cases hz : sem3_count db c.id = 0
      · simp [f3, f5, hz]
      · have : ¬ sem3_count db c.id < 1 := by omega
        have hp : sem3_count db c.id > 0 := by omega
        simp [f3, f5, this, hp]
    · subst hs
      by_cases hz : sem5_count db c.id = 0
      · simp [f3, f5, hz]
      · have : ¬ sem5_count db c.id < 1 := by omega
        have hp : sem5_count db c.id > 0 := by omega
        simp [f3, f5, this, hp]
  · have h2 : ¬ c.students_per_bench = 2 := by omega
    rw [if_neg h2, if_pos h3, if_neg h2, if_pos h3]
    rcases hsem with ⟨f3, f5, hs⟩ | ⟨f3, f5, hs⟩
    · subst hs
      by_cases hz : sem3_count db c.id < 2
      · have hp : ¬ sem3_count db c.id ≥ 2 := by omega
        simp [f3, f5, hz, hp]
      · have hp : sem3_count db c.id ≥ 2 := by omega
        simp [f3, f5, hz, hp]
    · subst hs
      by_cases hz : sem5_count db c.id < 2
      · have hp : ¬ sem5_count db c.id ≥ 2 := by omega
        simp [f3, f5, hz, hp]
      · have hp : sem5_count db c.id ≥ 2 := by omega
        simp [f3, f5, hz, hp]

/-- C10 on `sampleStore` after its first batch call: teacher 2 (semester 5)
and classroom 1, which holds one semester-3 teacher. -/
theorem c10_manual_agrees_with_canAllocate_witness :
    manualAllocate (runCalls rejectOthers sampleStore [.allocateDivision (.str "3") "A"]) (some 2) (some 1) =
        (.success "Teacher allocated successfully",
          insertAllocations (runCalls rejectOthers sampleStore [.allocateDivision (.str "3") "A"])
            [(2, 1)]) ↔
      canAllocate (.str "5")
        (classroomRow (runCalls rejectOthers sampleStore [.allocateDivision (.str "3") "A"])
          ⟨1, "CSC313", 40, 2, 80⟩) = true :=
  c10_manual_agrees_with_canAllocate (runCalls rejectOthers sampleStore [.allocateDivision (.str "3") "A"])
    ⟨2, "Bala", false, true, "A"⟩ ⟨1, "CSC313", 40, 2, 80⟩ (.str "5")
    (by decide) (by decide) (by decide) (by decide) (by decide) (by decide) (by decide)
    (by decide)

/-! ## The seating allocator -/

theorem allocateClassrooms_third (classrooms : List SeatingClassroom) :
    ∀ (d3 d5 : Divisions),
      (allocateClassrooms classrooms d3 d5).map
          (fun l => (l.thirdSemRollNumbers, l.thirdSemPaperCount)) =
        trackDraws (classrooms.map SeatingClassroom.no_of_benches) d3 := by
  induction classrooms with
  | nil => intro d3 d5; rfl
  | cons c rest ih =>
    intro d3 d5
    simp only [allocateClassrooms, List.map_cons, trackDraws, ih]

theorem allocateClassrooms_fifth (classrooms : List SeatingClassroom) :
    ∀ (d3 d5 : Divisions),
      (allocateClassrooms classrooms d3 d5).map
          (fun l => (l.fifthSemRollNumbers, l.fifthSemPaperCount)) =
        trackDraws (classrooms.map SeatingClassroom.no_of_benches) d5 := by
  induction classrooms with
  | nil => intro d3 d5; rfl
  | cons c rest ih =>
    intro d3 d5
    simp only [allocateClassrooms, List.map_cons, trackDraws, ih]

theorem thirdSemRollNumbers_eq (classrooms : List SeatingClassroom) (third fifth : List Student) :
    (seatingLocals classrooms third fifth).map SeatLocals.thirdSemRollNumbers =
      (trackDraws (classrooms.map SeatingClassroom.no_of_benches)
        (groupByDivision third)).map Prod.fst := by
  unfold seatingLocals
  rw [← allocateClassrooms_third classrooms _ (groupByDivision fifth), List.map_map]
  rfl

theorem fifthSemRollNumbers_eq (classrooms : List SeatingClassroom) (third fifth : List Student) :
    (seatingLocals classrooms third fifth).map SeatLocals.fifthSemRollNumbers =
      (trackDraws (classrooms.map SeatingClassroom.no_of_benches)
        (groupByDivision fifth)).map Prod.fst := by
  unfold seatingLocals
  rw [← allocateClassrooms_fifth classrooms (groupByDivision third) _, List.map_map]
  rfl

/-- C5, refuted as stated: with bench counts 2 and 3 and the sorted pool
101, 102, 103, 201 (4 students for 5 benches) the 3rd-semester track draws
101, 102, 103 only; roll number 201 is omitted. -/
theorem c5_counterexample :
    (examplePool.map Student.rno).Pairwise (fun a b => a ≤ b) ∧
    (examplePool.length : Int) ≤ (exampleClassrooms.map SeatingClassroom.no_of_benches).sum ∧
    ((seatingLocals exampleClassrooms examplePool []).map
        SeatLocals.thirdSemRollNumbers).flatten = [101, 102, 103] ∧
    ((seatingLocals exampleClassrooms examplePool []).map
        SeatLocals.thirdSemRollNumbers).flatten ≠ examplePool.map Student.rno := by
  decide

theorem push_bandsNonempty :
    ∀ (divisions : Divisions) (division rno : Int), divisions.BandsNonempty →
      (divisions.push division rno).BandsNonempty := by
  intro divisions
  induction divisions with
  | nil =>
    intro division rno _ entry he
    simp only [Divisions.push, List.mem_singleton] at he
    subst he; simp
  | cons head rest ih =>
    intro division rno h entry he
    obtain ⟨key, band⟩ := head
    have hrest : Divisions.BandsNonempty rest := fun e hm => h e (List.mem_cons_of_mem _ hm)
    simp only [Divisions.push] at he
    split_ifs at he with h1 h2
    · rcases List.mem_cons.1 he with rfl | hm
      · simp
      · exact hrest entry hm
    · rcases List.mem_cons.1 he with rfl | hm
      · simp
      · exact h entry hm
    · rcases List.mem_cons.1 he with rfl | hm
      · exact h _ (List.mem_cons_self _ _)
      · exact ih division rno hrest entry hm

theorem groupRolls_bandsNonempty (rollNumbers : List Int) :
    (groupRolls rollNumbers).BandsNonempty := by
  unfold groupRolls
  have : ∀ (l : List Int) (d : Divisions), d.BandsNonempty →
      (l.foldl (fun divisions rno => divisions.push (Int.fdiv rno 100) rno) d).BandsNonempty := by
    intro l
    induction l with
    | nil => intro d hd; exact hd
    | cons r rest ih => intro d hd; exact ih _ (push_bandsNonempty d _ r hd)
  exact this rollNumbers [] (fun e he => by cases he)

/-- One track in one classroom: the paper count is the number drawn plus 2 when
a student is drawn, it is 0 when none is drawn although the classroom has a
bench, and no band is left empty. -/
theorem drawTrack_count (divisions : Divisions) (benches : Int)
    (h : divisions.BandsNonempty) :
    ((drawTrack divisions benches).1.1 ≠ [] →
      (drawTrack divisions benches).1.2 = (drawTrack divisions benches).1.1.length + 2) ∧
    ((drawTrack divisions benches).1.1 = [] → 0 < benches →
      (drawTrack divisions benches).1.2 = 0) ∧
    (drawTrack divisions benches).2.BandsNonempty := by
  cases divisions with
  | nil => exact ⟨fun hne => absurd rfl hne, fun _ _ => rfl, h⟩
  | cons head rest =>
    obtain ⟨key, band⟩ := head
    have hband : band ≠ [] := h (key, band) (List.mem_cons_self _ _)
    have hrest : Divisions.BandsNonempty rest := fun e hm => h e (List.mem_cons_of_mem _ hm)
    refine ⟨fun _ => rfl, ?_, ?_⟩
    · intro hnil hpos
      exfalso
      simp only [drawTrack, List.take_eq_nil_iff] at hnil
      rcases hnil with h0 | h0
      · omega
      · exact hband h0
    · simp only [drawTrack]
      split_ifs with hz
      · exact hrest
      · intro entry he
        rcases List.mem_cons.1 he with rfl | hm
        · intro hd
          have hnil : List.drop benches.toNat band = [] := hd
          exact hz (by rw [hnil]; rfl)
        · exact hrest entry hm

theorem allocateClassrooms_count (classrooms : List SeatingClassroom) :
    ∀ (d3 d5 : Divisions), d3.BandsNonempty → d5.BandsNonempty →
      ∀ l ∈ allocateClassrooms classrooms d3 d5,
        (l.thirdSemRollNumbers ≠ [] → l.thirdSemPaperCount = l.thirdSemRollNumbers.length + 2) ∧
        (l.thirdSemRollNumbers = [] → 0 < l.classroom.no_of_benches →
          l.thirdSemPaperCount = 0) ∧
        (l.fifthSemRollNumbers ≠ [] → l.fifthSemPaperCount = l.fifthSemRollNumbers.length + 2) ∧
        (l.fifthSemRollNumbers = [] → 0 < l.classroom.no_of_benches →
          l.fifthSemPaperCount = 0) := by
  induction classrooms with
  | nil => intro d3 d5 _ _ l hl; cases hl
  | cons c rest ih =>
    intro d3 d5 h3 h5 l hl
    have t3 := drawTrack_count d3 c.no_of_benches h3
    have t5 := drawTrack_count d5 c.no_of_benches h5
    simp only [allocateClassrooms] at hl
    rcases List.mem_cons.1 hl with rfl | hm
    · exact ⟨t3.1, t3.2.1, t5.1, t5.2.1⟩
    · exact ih _ _ t3.2.2 t5.2.2 l hm

/-- C6, refuted as stated: for one classroom of 2 benches and empty pools no
student is drawn, and the record carries the paper count 0 on both tracks,
where the claim has no field. -/
theorem c6_counterexample :
    (seatingLocals [⟨1, "CSC313", 2⟩] [] []).map
        (fun l => (l.thirdSemRollNumbers, l.record.third_sem_paper_count,
          l.fifthSemRollNumbers, l.record.fifth_sem_paper_count)) = [([], 0, [], 0)] ∧
    some 0 ≠ specPaperCount [] := by
  decide

/-- C6, amended: for every classroom and each semester track of the seating
output, the paper count is the number of students drawn plus 2 when at least
one student was drawn; when no student was drawn and the classroom has at
least one bench, the field is present with the value 0. -/
theorem c6_paper_count (classrooms : List SeatingClassroom) (third fifth : List Student)
    (l : SeatLocals) (hl : l ∈ seatingLocals classrooms third fifth) :
    (l.thirdSemRollNumbers ≠ [] →
      l.record.third_sem_paper_count = l.thirdSemRollNumbers.length + 2) ∧
    (l.thirdSemRollNumbers = [] → 0 < l.classroom.no_of_benches →
      l.record.third_sem_paper_count = 0) ∧
    (l.fifthSemRollNumbers ≠ [] →
      l.record.fifth_sem_paper_count = l.fifthSemRollNumbers.length + 2) ∧
    (l.fifthSemRollNumbers = [] → 0 < l.classroom.no_of_benches →
      l.record.fifth_sem_paper_count = 0) :=
  allocateClassrooms_count classrooms _ _ (groupRolls_bandsNonempty _)
    (groupRolls_bandsNonempty _) l hl

/-- C6, amended, on the second classroom of the example: one student of the
3rd semester drawn, none of the 5th. -/
theorem c6_paper_count_witness :
    exampleSecondLocals ∈ seatingLocals exampleClassrooms examplePool [] ∧
    (exampleSecondLocals.thirdSemRollNumbers ≠ [] →
      exampleSecondLocals.record.third_sem_paper_count =
        exampleSecondLocals.thirdSemRollNumbers.length + 2) ∧
    (exampleSecondLocals.thirdSemRollNumbers = [] →
      0 < exampleSecondLocals.classroom.no_of_benches →
      exampleSecondLocals.record.third_sem_paper_count = 0) ∧
    (exampleSecondLocals.fifthSemRollNumbers ≠ [] →
      exampleSecondLocals.record.fifth_sem_paper_count =
        exampleSecondLocals.fifthSemRollNumbers.length + 2) ∧
    (exampleSecondLocals.fifthSemRollNumbers = [] →
      0 < exampleSecondLocals.classroom.no_of_benches →
      exampleSecondLocals.record.fifth_sem_paper_count = 0) :=
  ⟨by decide,
    c6_paper_count exampleClassrooms examplePool [] exampleSecondLocals (by decide)⟩

/-- C7: for classrooms with bench counts 2 and 3 in sequence order and the
3rd-semester roll numbers 101, 102, 103, 201, the records carry the 3rd-sem
range "101-102" with paper count 4 for classroom 1 and "103-103" with paper
count 3 for classroom 2, and the roll numbers drawn are 101, 102, 103: roll
number 201 is drawn by no classroom. -/
theorem c7_example (c1 c2 : SeatingClassroom) (third fifth : List Student)
    (h1 : c1.no_of_benches = 2) (h2 : c2.no_of_benches = 3)
    (hpool : third.map Student.rno = [101, 102, 103, 201]) :
    (seatingArrangement [c1, c2] third fifth).map
        (fun r => (r.third_sem_roll_numbers, r.third_sem_paper_count)) =
      [("101-102", 4), ("103-103", 3)] ∧
    (seatingLocals [c1, c2] third fifth).map SeatLocals.thirdSemRollNumbers =
      [[101, 102], [103]] ∧
    ∀ l ∈ seatingLocals [c1, c2] third fifth, (201 : Int) ∉ l.thirdSemRollNumbers := by
  have hd : (seatingLocals [c1, c2] third fifth).map
      (fun l => (l.thirdSemRollNumbers, l.thirdSemPaperCount)) =
      [([101, 102], 4), ([103], 3)] := by
    unfold seatingLocals
    rw [allocateClassrooms_third]
    simp only [List.map_cons, List.map_nil, h1, h2, groupByDivision, hpool]
    decide
  have hrolls : (seatingLocals [c1, c2] third fifth).map SeatLocals.thirdSemRollNumbers =
      [[101, 102], [103]] := by
    have := congrArg (List.map Prod.fst) hd
    simpa [List.map_map, Function.comp_def] using this
  refine ⟨?_, hrolls, ?_⟩
  · unfold seatingArrangement
    rw [List.map_map]
    have := congrArg (List.map (fun p : List Int × Nat => (getRollNumberRange p.1, p.2))) hd
    rw [List.map_map] at this
    rw [show ((fun r : SeatRecord => (r.third_sem_roll_numbers, r.third_sem_paper_count)) ∘
          SeatLocals.record) =
        ((fun p : List Int × Nat => (getRollNumberRange p.1, p.2)) ∘
          fun l : SeatLocals => (l.thirdSemRollNumbers, l.thirdSemPaperCount)) from rfl, this]
    decide
  · intro l hl
    have hm : l.thirdSemRollNumbers ∈ [[101, 102], [(103 : Int)]] := by
      rw [← hrolls]; exact List.mem_map_of_mem _ hl
    simp only [List.mem_cons, List.mem_singleton, List.not_mem_nil, or_false] at hm
    rcases hm with h | h <;> rw [h] <;> decide

/-- C7 on the example classrooms and pool, with an empty 5th-semester pool. -/
theorem c7_example_witness :
    (seatingArrangement exampleClassrooms examplePool []).map
        (fun r => (r.third_sem_roll_numbers, r.third_sem_paper_count)) =
      [("101-102", 4), ("103-103", 3)] ∧
    (seatingLocals exampleClassrooms examplePool []).map SeatLocals.thirdSemRollNumbers =
      [[101, 102], [103]] ∧
    ∀ l ∈ seatingLocals exampleClassrooms examplePool [],
      (201 : Int) ∉ l.thirdSemRollNumbers :=
  c7_example ⟨1, "CSC313", 2⟩ ⟨2, "CLAB-1", 3⟩ examplePool [] rfl rfl (by decide)

/-! ## The walk as a pairing of two lists -/

/-- The walk pairs the teachers from the cursor on with the rows on which
`canAllocate` holds, in order, until one of the two lists ends. -/
theorem walk_eq_zip (semester : JsValue) (ts : List Teacher) :
    ∀ (rows : List ClassroomRow) (i : Nat),
      walk semester ts rows i =
        ((ts.drop i).zip (rows.filter (canAllocate semester))).map
          (fun p => (p.1.id, p.2.classroom.id)) := by
  intro rows
  induction rows with
  | nil => intro i; simp [walk]
  | cons r rest ih =>
    intro i
    unfold walk
    split
    · rename_i hc
      rw [List.filter_cons_of_pos hc.1, List.drop_eq_getElem_cons hc.2, List.zip_cons_cons,
        List.map_cons, ih (i + 1)]
      rfl
    · rename_i hc
      by_cases hcan : canAllocate semester r = true
      · have hlen : ts.length ≤ i := by
          by_contra hlt
          exact hc ⟨hcan, by omega⟩
        rw [ih i, List.drop_eq_nil_of_le hlen]
        simp
      · rw [List.filter_cons_of_neg hcan]
        exact ih i

theorem walk_fst_sublist (semester : JsValue) (ts : List Teacher) :
    ∀ (rows : List ClassroomRow) (i : Nat),
      ((walk semester ts rows i).map Prod.fst).Sublist ((ts.drop i).map Teacher.id) := by
  intro rows
  induction rows with
  | nil => intro i; simp [walk]
  | cons r rest ih =>
    intro i
    unfold walk
    split
    · rename_i hc
      rw [List.drop_eq_getElem_cons hc.2, List.map_cons, List.map_cons]
      exact (ih (i + 1)).cons₂ _
    · exact ih i

theorem walk_snd_sublist (semester : JsValue) (ts : List Teacher) :
    ∀ (rows : List ClassroomRow) (i : Nat),
      ((walk semester ts rows i).map Prod.snd).Sublist
        (rows.map (fun r => r.classroom.id)) := by
  intro rows
  induction rows with
  | nil => intro i; simp [walk]
  | cons r rest ih =>
    intro i
    unfold walk
    split
    · rw [List.map_cons, List.map_cons]
      exact (ih (i + 1)).cons₂ _
    · rw [List.map_cons]
      exact (ih i).cons _

theorem availableTeachers_nodup (db : DB) (column : Teacher → Bool) (division : String)
    (h : (db.teachers.map Teacher.id).Nodup) :
    ((availableTeachers db column division).map Teacher.id).Nodup := by
  unfold availableTeachers
  rw [((List.perm_insertionSort _ _).map _).nodup_iff]
  exact List.Nodup.sublist ((List.filter_sublist _).map _) h

/-- C11: over classroom rows with distinct ids and teacher rows with distinct
ids, the pairings of an allocate-division call are one-to-one: no teacher id
appears in two pairings and no classroom id appears in two pairings. -/
theorem c11_pairings_one_to_one (db : DB) (semester : JsValue) (column : Teacher → Bool)
    (division : String) (hpk : db.PrimaryKeys) :
    ((pairings db semester column division).map Prod.fst).Nodup ∧
    ((pairings db semester column division).map Prod.snd).Nodup := by
  unfold pairings
  constructor
  · have h := walk_fst_sublist semester (availableTeachers db column division)
      (availableClassrooms db) 0
    rw [List.drop_zero] at h
    exact h.nodup (availableTeachers_nodup db column division hpk.2)
  · exact (walk_snd_sublist semester _ _ 0).nodup (availableClassrooms_nodup db hpk.1)

/-- C11 on `sampleStore`, semester "3", division "A". -/
theorem c11_pairings_one_to_one_witness :
    ((pairings sampleStore (.str "3") Teacher.teaches_sem_3 "A").map Prod.fst).Nodup ∧
    ((pairings sampleStore (.str "3") Teacher.teaches_sem_3 "A").map Prod.snd).Nodup :=
  c11_pairings_one_to_one sampleStore (.str "3") Teacher.teaches_sem_3 "A" (by decide)

/-- C12: once its queries are accepted, allocate-division answers 400 "No
valid allocations could be created. Check semester distribution rules." and
leaves the store as it was exactly when the walk produced no pairing, in
particular when `canAllocate` holds on no classroom row or no teacher is
available; otherwise it inserts all pairings and reports success with their
count. -/
theorem c12_result_branch (others : OtherQueries) (db : DB) (semester : JsValue)
    (division : String) (column : Teacher → Bool)
    (hcol : semesterColumn semester = some column) :
    (pairings db semester column division = [] ↔
      allocateDivision others db semester division =
        (.failure 400
          "No valid allocations could be created. Check semester distribution rules.", db)) ∧
    (pairings db semester column division ≠ [] →
      allocateDivision others db semester division =
        (.success ("Created " ++
            toString (pairings db semester column division).length ++ " allocations"),
          insertAllocations db (pairings db semester column division)) ∧
      (allocateDivision others db semester division).2.allocations =
        db.allocations ++
          (pairings db semester column division).map (fun p => ⟨p.1, p.2⟩)) ∧
    ((availableClassrooms db).filter (canAllocate semester) = [] →
      pairings db semester column division = []) ∧
    (availableTeachers db column division = [] →
      pairings db semester column division = []) := by
  have hcases : ∀ l : List (Nat × Nat), l = [] ∨ l.length > 0 := by
    intro l
    cases l with
    | nil => exact Or.inl rfl
    | cons a t => exact Or.inr (Nat.succ_pos _)
  refine ⟨?_, ?_, ?_, ?_⟩
  · rw [allocateDivision_of_column others db semester division column hcol]
    rcases hcases (pairings db semester column division) with h | h
    · rw [h]; simp
    · rw [if_pos h]
      constructor
      · intro h0; rw [h0] at h; exact absurd h (by simp)
      · intro h0; cases h0
  · intro hne
    rw [allocateDivision_of_column others db semester division column hcol]
    rcases hcases (pairings db semester column division) with h | h
    · exact absurd h hne
    · rw [if_pos h]
      exact ⟨rfl, rfl⟩
  · intro h
    unfold pairings
    rw [walk_eq_zip, h]
    simp
  · intro h
    unfold pairings
    rw [walk_eq_zip, h]
    simp

/-- C12 on `sampleStore`, semester "3", division "A": two pairings inserted. -/
theorem c12_result_branch_witness :
    allocateDivision rejectOthers sampleStore (.str "3") "A" =
      (.success "Created 2 allocations", insertAllocations sampleStore [(1, 2), (3, 1)]) :=
  ((c12_result_branch rejectOthers sampleStore (.str "3") "A" Teacher.teaches_sem_3 rfl).2.1
    (by decide)).1

/-- C13: for a classroom whose `students_per_bench` is neither 2 nor 3,
`canAllocate` is false for every semester and every counts, under capacity or
not, and the classroom is in no pairing of an allocate-division call. -/
theorem c13_other_capacities_skipped (c : Classroom)
    (h2 : c.students_per_bench ≠ 2) (h3 : c.students_per_bench ≠ 3) :
    (∀ (semester : JsValue) (current sem3 sem5 : Nat),
      canAllocate semester ⟨c, current, sem3, sem5⟩ = false) ∧
    (∀ (db : DB) (semester : JsValue) (column : Teacher → Bool) (division : String),
      (db.classrooms.map Classroom.id).Nodup → c ∈ db.classrooms →
      ∀ p ∈ pairings db semester column division, p.2 ≠ c.id) := by
  have hcan : ∀ (semester : JsValue) (row : ClassroomRow), row.classroom = c →
      canAllocate semester row = false := by
    intro semester row hrow
    unfold canAllocate
    simp only [hrow, h2, h3, if_false]
    split_ifs <;> rfl
  refine ⟨fun semester current sem3 sem5 => hcan semester _ rfl, ?_⟩
  intro db semester column division hpk hc p hp hid
  obtain ⟨r, hr, hcanr, hp2, -⟩ := walk_mem semester _ _ 0 p hp
  obtain ⟨c2, hc2, rfl, -⟩ := availableClassrooms_mem db r hr
  have hceq : c2 = c := List.inj_on_of_nodup_map hpk hc2 hc (by rw [← hid, hp2]; rfl)
  rw [hcan semester _ (by rw [← hceq]; rfl)] at hcanr
  cases hcanr

/-- C13 on a classroom of capacity 4. -/
theorem c13_other_capacities_skipped_witness :
    (∀ (semester : JsValue) (current sem3 sem5 : Nat),
      canAllocate semester ⟨lectureHall, current, sem3, sem5⟩ = false) ∧
    (∀ (db : DB) (semester : JsValue) (column : Teacher → Bool) (division : String),
      (db.classrooms.map Classroom.id).Nodup → lectureHall ∈ db.classrooms →
      ∀ p ∈ pairings db semester column division, p.2 ≠ lectureHall.id) :=
  c13_other_capacities_skipped lectureHall (by decide) (by decide)

/-- C18: with `E` the rows of the ordered classroom list on which
`canAllocate` is true and `T` the ordered list of available teachers, the
pairings are `T` and `E` paired in order: their number is `min |E| |T|` and
the k-th pairing is the id of the k-th teacher of `T` with the id of the k-th
classroom of `E`. -/
theorem c18_pairings_in_order (db : DB) (semester : JsValue) (column : Teacher → Bool)
    (division : String) :
    pairings db semester column division =
      ((availableTeachers db column division).zip
        ((availableClassrooms db).filter (canAllocate semester))).map
        (fun p => (p.1.id, p.2.classroom.id)) ∧
    (pairings db semester column division).length =
      min ((availableClassrooms db).filter (canAllocate semester)).length
        (availableTeachers db column division).length ∧
    ∀ (k : Nat) (t : Teacher) (e : ClassroomRow),
      (availableTeachers db column division)[k]? = some t →
      ((availableClassrooms db).filter (canAllocate semester))[k]? = some e →
      (pairings db semester column division)[k]? = some (t.id, e.classroom.id) := by
  have hzip : pairings db semester column division =
      ((availableTeachers db column division).zip
        ((availableClassrooms db).filter (canAllocate semester))).map
        (fun p => (p.1.id, p.2.classroom.id)) := by
    unfold pairings
    rw [walk_eq_zip, List.drop_zero]
  refine ⟨hzip, ?_, ?_⟩
  · rw [hzip, List.length_map, List.length_zip, Nat.min_comm]
  · intro k t e ht he
    rw [hzip, List.getElem?_map]
    have : ((availableTeachers db column division).zip
        ((availableClassrooms db).filter (canAllocate semester)))[k]? = some (t, e) :=
      List.getElem?_zip_eq_some.2 ⟨ht, he⟩
    rw [this]
    rfl

/-- C18 on `sampleStore`, semester "3", division "A": the first pairing. -/
theorem c18_pairings_in_order_witness :
    (pairings sampleStore (.str "3") Teacher.teaches_sem_3 "A")[0]? = some (1, 2) :=
  (c18_pairings_in_order sampleStore (.str "3") Teacher.teaches_sem_3 "A").2.2 0
    ⟨1, "Asha", true, false, "A"⟩
    (classroomRow sampleStore ⟨2, "CLH208", 22, 3, 66⟩) (by decide) (by decide)

/-- C16: deleting the allocations of a classroom id removes every allocation
row with that `classroom_id` and leaves the rows of every other classroom, and
the other tables, as they were. -/
theorem c16_delete_frame (db : DB) (classroomId : Nat) :
    allocationsOf (deleteClassroomAllocations db classroomId).2 classroomId = [] ∧
    (∀ other : Nat, other ≠ classroomId →
      allocationsOf (deleteClassroomAllocations db classroomId).2 other =
        allocationsOf db other) ∧
    (∀ a : Allocation, a ∈ (deleteClassroomAllocations db classroomId).2.allocations ↔
      a ∈ db.allocations ∧ a.classroom_id ≠ classroomId) ∧
    (deleteClassroomAllocations db classroomId).2.classrooms = db.classrooms ∧
    (deleteClassroomAllocations db classroomId).2.teachers = db.teachers ∧
    (deleteClassroomAllocations db classroomId).1 =
      .success "Allocations deleted successfully" := by
  refine ⟨?_, ?_, ?_, rfl, rfl, rfl⟩
  · unfold allocationsOf deleteClassroomAllocations
    simp [List.filter_filter]
  · intro other hne
    unfold allocationsOf deleteClassroomAllocations
    simp only [List.filter_filter]
    apply List.filter_congr
    intro a _
    by_cases ha : a.classroom_id = other
    · simp [ha, hne]
    · simp [ha]
  · intro a
    unfold deleteClassroomAllocations
    simp [List.mem_filter]

/-- C16 on `sampleStore` after `sampleCalls`, deleting for classroom 1: the
two rows of classroom 2 stay. -/
theorem c16_delete_frame_witness :
    allocationsOf (deleteClassroomAllocations (runCalls rejectOthers sampleStore sampleCalls) 1).2 2 =
      allocationsOf (runCalls rejectOthers sampleStore sampleCalls) 2 :=
  (c16_delete_frame (runCalls rejectOthers sampleStore sampleCalls) 1).2.1 2 (by decide)

/-- C15: manual-allocate answers 400 when `teacherId` or `classroomId` is
missing, 404 "Teacher not found" when no teacher has the id, 404 "Classroom
not found" when no classroom has the id, 400 when the classroom is full or the
semester rule is violated, each time leaving the store as it was; when all
checks pass it inserts the one allocation row `(teacherId, classroomId)` and
reports success. -/
theorem c15_manual_allocate_outcomes (db : DB) (teacherId classroomId : Option Nat) :
    ((truthyId teacherId = none ∨ truthyId classroomId = none) →
      manualAllocate db teacherId classroomId =
        (.failure 400 "Teacher ID and Classroom ID are required", db)) ∧
    (∀ tid cid : Nat, truthyId teacherId = some tid → truthyId classroomId = some cid →
      ((∀ t ∈ db.teachers, t.id ≠ tid) →
        manualAllocate db teacherId classroomId = (.failure 404 "Teacher not found", db)) ∧
      (∀ teacher : Teacher, db.teachers.find? (fun t => decide (t.id = tid)) = some teacher →
        ((∀ c ∈ db.classrooms, c.id ≠ cid) →
          manualAllocate db teacherId classroomId =
            (.failure 404 "Classroom not found", db)) ∧
        (∀ c : Classroom, db.classrooms.find? (fun c => decide (c.id = cid)) = some c →
          (c.students_per_bench ≤ (current_teachers db c.id : Int) →
            manualAllocate db teacherId classroomId =
              (.failure 400 "Classroom is already full", db)) ∧
          ((current_teachers db c.id : Int) < c.students_per_bench →
            c.students_per_bench = 2 →
            ((teacher.teaches_sem_3 = true ∧ sem3_count db c.id > 0) ∨
              (teacher.teaches_sem_5 = true ∧ sem5_count db c.id > 0)) →
            manualAllocate db teacherId classroomId =
              (.failure 400
                "For 2-capacity rooms, cannot have more than one teacher from the same semester",
                db)) ∧
          ((current_teachers db c.id : Int) < c.students_per_bench →
            c.students_per_bench = 3 →
            ((teacher.teaches_sem_3 = true ∧ sem3_count db c.id ≥ 2) ∨
              (teacher.teaches_sem_5 = true ∧ sem5_count db c.id ≥ 2)) →
            manualAllocate db teacherId classroomId =
              (.failure 400
                "For 3-capacity rooms, cannot have more than two teachers from the same semester",
                db)) ∧
          ((current_teachers db c.id : Int) < c.students_per_bench →
            (c.students_per_bench = 2 →
              ¬ ((teacher.teaches_sem_3 = true ∧ sem3_count db c.id > 0) ∨
                (teacher.teaches_sem_5 = true ∧ sem5_count db c.id > 0))) →
            (c.students_per_bench = 3 →
              ¬ ((teacher.teaches_sem_3 = true ∧ sem3_count db c.id ≥ 2) ∨
                (teacher.teaches_sem_5 = true ∧ sem5_count db c.id ≥ 2))) →
            manualAllocate db teacherId classroomId =
              (.success "Teacher allocated successfully",
                insertAllocations db [(tid, cid)]) ∧
            (manualAllocate db teacherId classroomId).2.allocations =
              db.allocations ++ [⟨tid, cid⟩])))) := by
  constructor
  · intro h
    unfold manualAllocate
    split
    · rename_i a b ha hb
      rcases h with h | h
      · rw [h] at ha; cases ha
      · rw [h] at hb; cases hb
    · rfl
  · intro tid cid htid hcid
    have hunf : manualAllocate db teacherId classroomId =
        match db.teachers.find? (fun t => decide (t.id = tid)) with
        | none => (.failure 404 "Teacher not found", db)
        | some teacher =>
          match db.classrooms.find? (fun c => decide (c.id = cid)) with
          | none => (.failure 404 "Classroom not found", db)
          | some c =>
            if (current_teachers db c.id : Int) ≥ c.students_per_bench then
              (.failure 400 "Classroom is already full", db)
            else if c.students_per_bench = 2 then
              if (teacher.teaches_sem_3 && decide (sem3_count db c.id > 0)) ||
                  (teacher.teaches_sem_5 && decide (sem5_count db c.id > 0)) then
                (.failure 400
                  "For 2-capacity rooms, cannot have more than one teacher from the same semester",
                  db)
              else (.success "Teacher allocated successfully",
                insertAllocations db [(tid, cid)])
            else if c.students_per_bench = 3 then
              if (teacher.teaches_sem_3 && decide (sem3_count db c.id ≥ 2)) ||
                  (teacher.teaches_sem_5 && decide (sem5_count db c.id ≥ 2)) then
                (.failure 400
                  "For 3-capacity rooms, cannot have more than two teachers from the same semester",
                  db)
              else (.success "Teacher allocated successfully",
                insertAllocations db [(tid, cid)])
            else (.success "Teacher allocated successfully",
              insertAllocations db [(tid, cid)]) := by
      unfold manualAllocate
      rw [htid, hcid]
      rfl
    constructor
    · intro hnone
      have : db.teachers.find? (fun t => decide (t.id = tid)) = none := by
        rw [List.find?_eq_none]
        intro t ht
        simpa using hnone t ht
      rw [hunf, this]
    · intro teacher hteacher
      constructor
      · intro hnone
        have : db.classrooms.find? (fun c => decide (c.id = cid)) = none := by
          rw [List.find?_eq_none]
          intro c hc
          simpa using hnone c hc
        rw [hunf, hteacher, this]
      · intro c hc
        rw [hunf, hteacher, hc]
        simp only
        refine ⟨?_, ?_, ?_, ?_⟩
        · intro hfull
          rw [if_pos (by omega)]
        · intro hlt h2 hviol
          rw [if_neg (by omega), if_pos h2, if_pos (by simpa using hviol)]
        · intro hlt h3 hviol
          have h2 : ¬ c.students_per_bench = 2 := by omega
          rw [if_neg (by omega), if_neg h2, if_pos h3, if_pos (by simpa using hviol)]
        · intro hlt hok2 hok3
          rw [if_neg (by omega)]
          by_cases h2 : c.students_per_bench = 2
          · rw [if_pos h2, if_neg (by simpa using hok2 h2)]
            exact ⟨rfl, rfl⟩
          · rw [if_neg h2]
            by_cases h3 : c.students_per_bench = 3
            · rw [if_pos h3, if_neg (by simpa using hok3 h3)]
              exact ⟨rfl, rfl⟩
            · rw [if_neg h3]
              exact ⟨rfl, rfl⟩

/-- C15 on `sampleStore`: teacher 2 into the empty classroom 1 is accepted and
one row is inserted. -/
theorem c15_manual_allocate_outcomes_witness :
    manualAllocate sampleStore (some 2) (some 1) =
        (.success "Teacher allocated successfully", insertAllocations sampleStore [(2, 1)]) ∧
      (manualAllocate sampleStore (some 2) (some 1)).2.allocations =
        sampleStore.allocations ++ [⟨2, 1⟩] :=
  ((((c15_manual_allocate_outcomes sampleStore (some 2) (some 1)).2 2 1 rfl rfl).2
    ⟨2, "Bala", false, true, "A"⟩ (by decide)).2 ⟨1, "CSC313", 40, 2, 80⟩ (by decide)).2.2.2
    (by decide) (by decide) (by decide)

/-! ## The seating allocator: records, ranges and bands -/

theorem allocateClassrooms_names (classrooms : List SeatingClassroom) :
    ∀ (d3 d5 : Divisions),
      (allocateClassrooms classrooms d3 d5).map (fun l => l.record.classroom_name) =
        classrooms.map SeatingClassroom.classroom_name := by
  induction classrooms with
  | nil => intro d3 d5; rfl
  | cons c rest ih =>
    intro d3 d5
    simp only [allocateClassrooms, List.map_cons, ih]
    rfl

/-- C17: the output of the seating allocator holds one record per classroom,
in the order of the input list, each with the `classroom_name` of its
classroom. -/
theorem c17_one_record_per_classroom (classrooms : List SeatingClassroom)
    (third fifth : List Student) :
    (seatingArrangement classrooms third fifth).map SeatRecord.classroom_name =
      classrooms.map SeatingClassroom.classroom_name ∧
    (seatingArrangement classrooms third fifth).length = classrooms.length := by
  have h : (seatingArrangement classrooms third fifth).map SeatRecord.classroom_name =
      classrooms.map SeatingClassroom.classroom_name := by
    unfold seatingArrangement seatingLocals
    rw [List.map_map]
    exact allocateClassrooms_names classrooms _ _
  refine ⟨h, ?_⟩
  have := congrArg List.length h
  simpa using this

/-- C20: `getRollNumberRange` returns the first and the last roll number of a
non-empty slice joined by a hyphen, and "EMPTY" for the empty slice. -/
theorem c20_roll_number_range :
    getRollNumberRange [] = "EMPTY" ∧
    ∀ (rollNumbers : List Int) (h : rollNumbers ≠ []),
      getRollNumberRange rollNumbers =
        toString (rollNumbers.head h) ++ "-" ++ toString (rollNumbers.getLast h) := by
  refine ⟨rfl, ?_⟩
  intro rollNumbers h
  cases rollNumbers with
  | nil => exact absurd rfl h
  | cons first rest =>
    unfold getRollNumberRange
    simp

/-- C20 on the slice 101, 102, 103. -/
theorem c20_roll_number_range_witness :
    getRollNumberRange [101, 102, 103] = "101-103" :=
  c20_roll_number_range.2 [101, 102, 103] (by decide)

theorem fdiv_hundred_nonneg (r : Int) (h : 0 ≤ r) : 0 ≤ Int.fdiv r 100 := by
  rw [Int.fdiv_eq_ediv r (by decide)]
  omega

theorem fdiv_hundred_mono (a b : Int) (h : a ≤ b) : Int.fdiv a 100 ≤ Int.fdiv b 100 := by
  rw [Int.fdiv_eq_ediv a (by decide), Int.fdiv_eq_ediv b (by decide)]
  omega

theorem push_mem_key :
    ∀ (divisions : Divisions) (division rno : Int), ∀ entry ∈ divisions.push division rno,
      entry.1 = division ∨ ∃ old ∈ divisions, old.1 = entry.1 := by
  intro divisions
  induction divisions with
  | nil =>
    intro division rno entry he
    simp only [Divisions.push, List.mem_singleton] at he
    subst he; exact Or.inl rfl
  | cons head rest ih =>
    intro division rno entry he
    obtain ⟨key, band⟩ := head
    simp only [Divisions.push] at he
    split_ifs at he with h1 h2
    · rcases List.mem_cons.1 he with rfl | hm
      · exact Or.inl h1
      · exact Or.inr ⟨entry, List.mem_cons_of_mem _ hm, rfl⟩
    · rcases List.mem_cons.1 he with rfl | hm
      · exact Or.inl rfl
      · exact Or.inr ⟨entry, hm, rfl⟩
    · rcases List.mem_cons.1 he with rfl | hm
      · exact Or.inr ⟨_, List.mem_cons_self _ _, rfl⟩
      · rcases ih division rno entry hm with h | ⟨old, hold, hk⟩
        · exact Or.inl h
        · exact Or.inr ⟨old, List.mem_cons_of_mem _ hold, hk⟩

theorem push_wellKeyed :
    ∀ (divisions : Divisions) (rno : Int), divisions.WellKeyed → 0 ≤ Int.fdiv rno 100 →
      (divisions.push (Int.fdiv rno 100) rno).WellKeyed := by
  intro divisions
  induction divisions with
  | nil =>
    intro rno _ hk
    refine ⟨by simp [Divisions.push], ?_, ?_⟩
    · intro entry he
      simp only [Divisions.push, List.mem_singleton] at he
      subst he; exact hk
    · intro entry he r hr
      simp only [Divisions.push, List.mem_singleton] at he
      subst he
      simp only [List.mem_singleton] at hr
      subst hr; rfl
  | cons head rest ih =>
    intro rno hw hk
    obtain ⟨key, band⟩ := head
    obtain ⟨hpair, hnonneg, hkeyed⟩ := hw
    rw [List.pairwise_cons] at hpair
    have hrest : Divisions.WellKeyed rest :=
      ⟨hpair.2, fun e he => hnonneg e (List.mem_cons_of_mem _ he),
        fun e he => hkeyed e (List.mem_cons_of_mem _ he)⟩
    have hkey0 : 0 ≤ key := hnonneg (key, band) (List.mem_cons_self _ _)
    simp only [Divisions.push]
    split_ifs with h1 h2
    · refine ⟨List.pairwise_cons.2 ⟨hpair.1, hpair.2⟩, ?_, ?_⟩
      · intro entry he
        rcases List.mem_cons.1 he with rfl | hm
        · exact hkey0
        · exact hnonneg entry (List.mem_cons_of_mem _ hm)
      · intro entry he r hr
        rcases List.mem_cons.1 he with rfl | hm
        · rcases List.mem_append.1 hr with hb | hx
          · exact hkeyed (key, band) (List.mem_cons_self _ _) r hb
          · simp only [List.mem_singleton] at hx
            subst hx; exact h1.symm
        · exact hkeyed entry (List.mem_cons_of_mem _ hm) r hr
    · have hlt : Int.fdiv rno 100 < key := by omega
      refine ⟨List.pairwise_cons.2 ⟨?_, List.pairwise_cons.2 hpair⟩, ?_, ?_⟩
      · intro entry he
        rcases List.mem_cons.1 he with rfl | hm
        · exact hlt
        · exact lt_trans hlt (hpair.1 entry hm)
      · intro entry he
        rcases List.mem_cons.1 he with rfl | hm
        · exact hk
        · exact hnonneg entry hm
      · intro entry he r hr
        rcases List.mem_cons.1 he with rfl | hm
        · simp only [List.mem_singleton] at hr
          subst hr; rfl
        · exact hkeyed entry hm r hr
    · have hlt : key < Int.fdiv rno 100 := by omega
      obtain ⟨ipair, inonneg, ikeyed⟩ := ih rno hrest hk
      refine ⟨List.pairwise_cons.2 ⟨?_, ipair⟩, ?_, ?_⟩
      · intro entry he
        rcases push_mem_key rest _ rno entry he with h | ⟨old, hold, hkk⟩
        · rw [h]; exact hlt
        · rw [← hkk]; exact hpair.1 old hold
      · intro entry he
        rcases List.mem_cons.1 he with rfl | hm
        · exact hkey0
        · exact inonneg entry hm
      · intro entry he r hr
        rcases List.mem_cons.1 he with rfl | hm
        · exact hkeyed (key, band) (List.mem_cons_self _ _) r hr
        · exact ikeyed entry hm r hr

theorem foldl_push_wellKeyed (rollNumbers : List Int) :
    ∀ divisions : Divisions, divisions.WellKeyed → (∀ r ∈ rollNumbers, 0 ≤ r) →
      (rollNumbers.foldl (fun divisions rno => divisions.push (Int.fdiv rno 100) rno)
        divisions).WellKeyed := by
  induction rollNumbers with
  | nil => intro d hd _; exact hd
  | cons r rest ih =>
    intro d hd h
    exact ih _ (push_wellKeyed d r hd (fdiv_hundred_nonneg r (h r (List.mem_cons_self _ _))))
      (fun x hx => h x (List.mem_cons_of_mem _ hx))

theorem wellKeyed_nil : Divisions.WellKeyed [] := by
  refine ⟨List.Pairwise.nil, ?_, ?_⟩
  · intro entry he; cases he
  · intro entry he; cases he

theorem groupRolls_wellKeyed (rollNumbers : List Int) (h : ∀ r ∈ rollNumbers, 0 ≤ r) :
    (groupRolls rollNumbers).WellKeyed :=
  foldl_push_wellKeyed rollNumbers [] wellKeyed_nil h

/-- Pushing a roll number whose key is at least every key of the object puts
it at the end of the concatenated bands. -/
theorem push_flatten :
    ∀ (divisions : Divisions) (division rno : Int),
      divisions.Pairwise (fun a b => a.1 < b.1) →
      (∀ entry ∈ divisions, 0 ≤ entry.1 ∧ entry.1 ≤ division) →
      ((divisions.push division rno).map Prod.snd).flatten =
        (divisions.map Prod.snd).flatten ++ [rno] := by
  intro divisions
  induction divisions with
  | nil => intro division rno _ _; simp [Divisions.push]
  | cons head rest ih =>
    intro division rno hpair hle
    obtain ⟨key, band⟩ := head
    rw [List.pairwise_cons] at hpair
    have hhead := hle (key, band) (List.mem_cons_self _ _)
    simp only [Divisions.push]
    split_ifs with h1 h2
    · have hnil : rest = [] := by
        rw [List.eq_nil_iff_forall_not_mem]
        intro e he
        have h3 := hpair.1 e he
        have h4 := (hle e (List.mem_cons_of_mem _ he)).2
        simp only at h3
        omega
      subst hnil
      simp
    · exfalso
      simp only at hhead
      omega
    · simp only [List.map_cons, List.flatten_cons]
      rw [ih division rno hpair.2 (fun e he => hle e (List.mem_cons_of_mem _ he)),
        List.append_assoc]

theorem foldl_push_flatten (rollNumbers : List Int) :
    ∀ divisions : Divisions, divisions.WellKeyed →
      rollNumbers.Pairwise (fun a b => a ≤ b) → (∀ r ∈ rollNumbers, 0 ≤ r) →
      (∀ entry ∈ divisions, ∀ r ∈ rollNumbers, entry.1 ≤ Int.fdiv r 100) →
      ((rollNumbers.foldl (fun divisions rno => divisions.push (Int.fdiv rno 100) rno)
        divisions).map Prod.snd).flatten = (divisions.map Prod.snd).flatten ++ rollNumbers := by
  induction rollNumbers with
  | nil => intro d _ _ _ _; simp
  | cons x rest ih =>
    intro d hd hsorted hnonneg hkeys
    rw [List.pairwise_cons] at hsorted
    have hx0 : 0 ≤ Int.fdiv x 100 := fdiv_hundred_nonneg x (hnonneg x (List.mem_cons_self _ _))
    rw [List.foldl_cons, ih _ (push_wellKeyed d x hd hx0) hsorted.2
      (fun r hr => hnonneg r (List.mem_cons_of_mem _ hr))]
    · rw [push_flatten d _ x hd.1
        (fun e he => ⟨hd.2.1 e he, hkeys e he x (List.mem_cons_self _ _)⟩), List.append_assoc]
      rfl
    · intro entry he r hr
      rcases push_mem_key d _ x entry he with h | ⟨old, hold, hk⟩
      · rw [h]; exact fdiv_hundred_mono x r (hsorted.1 r hr)
      · rw [← hk]; exact hkeys old hold r (List.mem_cons_of_mem _ hr)

/-- The bands of a pool sorted by non-negative roll number, concatenated in
the order of the keys, are the pool. -/
theorem groupRolls_flatten (rollNumbers : List Int)
    (hsorted : rollNumbers.Pairwise (fun a b => a ≤ b)) (hnonneg : ∀ r ∈ rollNumbers, 0 ≤ r) :
    ((groupRolls rollNumbers).map Prod.snd).flatten = rollNumbers := by
  have := foldl_push_flatten rollNumbers [] wellKeyed_nil hsorted hnonneg
    (fun _ h => by cases h)
  simpa [groupRolls] using this

/-- C19: for a pool sorted ascending by non-negative roll number,
`groupByDivision` yields bands keyed by `floor(rno / 100)` whose keys come in
ascending order, each band lists its roll numbers in ascending order, and the
bands concatenated in key order are the roll numbers of the pool. -/
theorem c19_groupByDivision_sorted_pool (students : List Student)
    (hsorted : (students.map Student.rno).Pairwise (fun a b => a ≤ b))
    (hnonneg : ∀ s ∈ students, 0 ≤ s.rno) :
    (∀ entry ∈ groupByDivision students, ∀ r ∈ entry.2, Int.fdiv r 100 = entry.1) ∧
    ((groupByDivision students).map Prod.fst).Pairwise (fun a b => a < b) ∧
    (∀ entry ∈ groupByDivision students, entry.2.Pairwise (fun a b => a ≤ b)) ∧
    ((groupByDivision students).map Prod.snd).flatten = students.map Student.rno := by
  have hn : ∀ r ∈ students.map Student.rno, 0 ≤ r := by
    intro r hr
    obtain ⟨s, hs, rfl⟩ := List.mem_map.1 hr
    exact hnonneg s hs
  have hw := groupRolls_wellKeyed (students.map Student.rno) hn
  have hf := groupRolls_flatten (students.map Student.rno) hsorted hn
  refine ⟨hw.2.2, ?_, ?_, hf⟩
  · rw [List.pairwise_map]
    exact hw.1
  · intro entry he
    have hsub : entry.2.Sublist ((groupByDivision students).map Prod.snd).flatten :=
      List.sublist_flatten_of_mem (List.mem_map_of_mem Prod.snd he)
    unfold groupByDivision at hsub
    rw [hf] at hsub
    exact hsorted.sublist hsub

/-- C19 on the example pool 101, 102, 103, 201. -/
theorem c19_groupByDivision_sorted_pool_witness :
    (∀ entry ∈ groupByDivision examplePool, ∀ r ∈ entry.2, Int.fdiv r 100 = entry.1) ∧
    ((groupByDivision examplePool).map Prod.fst).Pairwise (fun a b => a < b) ∧
    (∀ entry ∈ groupByDivision examplePool, entry.2.Pairwise (fun a b => a ≤ b)) ∧
    ((groupByDivision examplePool).map Prod.snd).flatten = examplePool.map Student.rno :=
  c19_groupByDivision_sorted_pool examplePool (by decide) (by decide)

theorem drawTrack_wellKeyed (divisions : Divisions) (benches : Int)
    (h : divisions.WellKeyed) : (drawTrack divisions benches).2.WellKeyed := by
  cases divisions with
  | nil => exact h
  | cons head rest =>
    obtain ⟨key, band⟩ := head
    obtain ⟨hpair, hnonneg, hkeyed⟩ := h
    rw [List.pairwise_cons] at hpair
    have hrest : Divisions.WellKeyed rest :=
      ⟨hpair.2, fun e he => hnonneg e (List.mem_cons_of_mem _ he),
        fun e he => hkeyed e (List.mem_cons_of_mem _ he)⟩
    simp only [drawTrack]
    split_ifs
    · exact hrest
    · refine ⟨List.pairwise_cons.2 ⟨hpair.1, hpair.2⟩, ?_, ?_⟩
      · intro entry he
        rcases List.mem_cons.1 he with rfl | hm
        · exact hnonneg (key, band) (List.mem_cons_self _ _)
        · exact hnonneg entry (List.mem_cons_of_mem _ hm)
      · intro entry he r hr
        rcases List.mem_cons.1 he with rfl | hm
        · exact hkeyed (key, band) (List.mem_cons_self _ _) r (List.mem_of_mem_drop hr)
        · exact hkeyed entry (List.mem_cons_of_mem _ hm) r hr

theorem divisionsAfter_wellKeyed (benches : List Int) :
    ∀ divisions : Divisions, divisions.WellKeyed →
      (divisionsAfter benches divisions).WellKeyed := by
  induction benches with
  | nil => intro d hd; exact hd
  | cons b rest ih => intro d hd; exact ih _ (drawTrack_wellKeyed d b hd)

theorem trackDraws_getElem? (benches : List Int) :
    ∀ (divisions : Divisions) (i : Nat),
      (trackDraws benches divisions)[i]? =
        (benches[i]?).map
          (fun b => (drawTrack (divisionsAfter (benches.take i) divisions) b).1) := by
  induction benches with
  | nil => intro d i; simp [trackDraws]
  | cons b rest ih =>
    intro d i
    cases i with
    | zero => simp [trackDraws, divisionsAfter]
    | succ j =>
      simp only [trackDraws, List.getElem?_cons_succ, List.take_succ_cons, divisionsAfter]
      exact ih _ j

theorem take_min_length (l : List Int) (n : Nat) : l.take (min n l.length) = l.take n := by
  by_cases h : n ≤ l.length
  · rw [Nat.min_eq_left h]
  · rw [Nat.min_eq_right (by omega), List.take_of_length_le (le_refl _),
      List.take_of_length_le (by omega)]

theorem drawTrack_drawnFromLowestBand (divisions : Divisions) (benches : Int)
    (h : divisions.WellKeyed) :
    DrawnFromLowestBand divisions benches (drawTrack divisions benches).1.1 := by
  cases divisions with
  | nil => exact ⟨Nat.zero_le _, ⟨0, fun r hr => by cases hr⟩, rfl⟩
  | cons head rest =>
    obtain ⟨key, band⟩ := head
    obtain ⟨hpair, -, hkeyed⟩ := h
    rw [List.pairwise_cons] at hpair
    have hk : ∀ r ∈ band.take benches.toNat, Int.fdiv r 100 = key :=
      fun r hr => hkeyed (key, band) (List.mem_cons_self _ _) r (List.mem_of_mem_take hr)
    refine ⟨?_, ⟨key, hk⟩, ?_, hk, hpair.1⟩
    · simp only [drawTrack, List.length_take]
      omega
    · simp only [drawTrack]
      rw [take_min_length]

/-- The students one track draws in the classroom at position `i`. -/
theorem trackDraws_drawn (classrooms : List SeatingClassroom) (rollNumbers : List Int)
    (i : Nat) (c : SeatingClassroom) (hc : classrooms[i]? = some c) :
    ((trackDraws (classrooms.map SeatingClassroom.no_of_benches)
        (groupRolls rollNumbers)).map Prod.fst)[i]? =
      some (drawTrack (divisionsAfter ((classrooms.take i).map SeatingClassroom.no_of_benches)
        (groupRolls rollNumbers)) c.no_of_benches).1.1 := by
  rw [List.getElem?_map, trackDraws_getElem?, List.getElem?_map, hc, List.map_take]
  rfl

/-- C14, refuted as stated: for the sorted pool -5, 3 the object holds the
bands of the keys 0 and -1 in this order, and the one classroom draws roll
number 3 of division 0 although the band of the lower key -1 remains; and a
classroom with -1 benches draws 0 students, which is more than -1. -/
theorem c14_counterexample :
    (negativeRollPool.map Student.rno).Pairwise (fun a b => a ≤ b) ∧
    groupByDivision negativeRollPool = [(0, [3]), (-1, [-5])] ∧
    (seatingLocals [⟨1, "CSC313", 2⟩] negativeRollPool []).map
      SeatLocals.thirdSemRollNumbers = [[3]] ∧
    ¬ DrawnFromLowestBand (groupByDivision negativeRollPool) 2 [3] ∧
    (seatingLocals [⟨1, "CSC313", -1⟩] examplePool []).map
      SeatLocals.thirdSemRollNumbers = [[]] ∧
    ¬ ((([] : List Int).length : Int) ≤ -1) := by
  refine ⟨by decide, by decide, by decide, ?_, by decide, by decide⟩
  intro h
  have h1 : ([3] : List Int) = List.take (min (2 : Int).toNat [(3 : Int)].length) [3] ∧
      (∀ r ∈ ([3] : List Int), Int.fdiv r 100 = 0) ∧
      ∀ entry ∈ [((-1 : Int), [(-5 : Int)])], (0 : Int) < entry.1 := h.2.2
  exact absurd (h1.2.2 (-1, [-5]) (List.mem_cons_self _ _)) (by decide)

/-- C14, amended: on either semester track, for a pool of non-negative roll
numbers, the students drawn by the classroom at position `i` number at most
`no_of_benches` (none when it is below 0), all share one division key
`floor(rno / 100)`, and are exactly the first `min no_of_benches (band size)`
entries of the band of the lowest key still in the object when that classroom
is processed; none is drawn when no band is left. -/
theorem c14_draw_from_lowest_band (classrooms : List SeatingClassroom)
    (pool other : List Student) (i : Nat) (c : SeatingClassroom)
    (hnonneg : ∀ s ∈ pool, 0 ≤ s.rno) (hc : classrooms[i]? = some c) :
    (∃ drawn : List Int,
      ((seatingLocals classrooms pool other).map SeatLocals.thirdSemRollNumbers)[i]? =
        some drawn ∧
      DrawnFromLowestBand
        (divisionsAfter ((classrooms.take i).map SeatingClassroom.no_of_benches)
          (groupByDivision pool)) c.no_of_benches drawn) ∧
    (∃ drawn : List Int,
      ((seatingLocals classrooms other pool).map SeatLocals.fifthSemRollNumbers)[i]? =
        some drawn ∧
      DrawnFromLowestBand
        (divisionsAfter ((classrooms.take i).map SeatingClassroom.no_of_benches)
          (groupByDivision pool)) c.no_of_benches drawn) := by
  have hn : ∀ r ∈ pool.map Student.rno, 0 ≤ r := by
    intro r hr
    obtain ⟨s, hs, rfl⟩ := List.mem_map.1 hr
    exact hnonneg s hs
  have hw := divisionsAfter_wellKeyed ((classrooms.take i).map SeatingClassroom.no_of_benches)
    _ (groupRolls_wellKeyed (pool.map Student.rno) hn)
  have hd := drawTrack_drawnFromLowestBand _ c.no_of_benches hw
  have hg := trackDraws_drawn classrooms (pool.map Student.rno) i c hc
  constructor
  · refine ⟨_, ?_, hd⟩
    rw [thirdSemRollNumbers_eq]
    exact hg
  · refine ⟨_, ?_, hd⟩
    rw [fifthSemRollNumbers_eq]
    exact hg

/-- C14, amended, on the second classroom of the example: it draws 103, the
one entry left of the band of key 1, while the band of key 2 waits. -/
theorem c14_draw_from_lowest_band_witness :
    (∃ drawn : List Int,
      ((seatingLocals exampleClassrooms examplePool oneBandPool).map
        SeatLocals.thirdSemRollNumbers)[1]? = some drawn ∧
      DrawnFromLowestBand
        (divisionsAfter ((exampleClassrooms.take 1).map SeatingClassroom.no_of_benches)
          (groupByDivision examplePool)) 3 drawn) ∧
    (∃ drawn : List Int,
      ((seatingLocals exampleClassrooms oneBandPool examplePool).map
        SeatLocals.fifthSemRollNumbers)[1]? = some drawn ∧
      DrawnFromLowestBand
        (divisionsAfter ((exampleClassrooms.take 1).map SeatingClassroom.no_of_benches)
          (groupByDivision examplePool)) 3 drawn) :=
  c14_draw_from_lowest_band exampleClassrooms examplePool oneBandPool 1 ⟨2, "CLAB-1", 3⟩
    (by decide) (by decide)

/-! ## The seating allocator: what is drawn and what is left -/

theorem drawTrack_flatten (divisions : Divisions) (benches : Int) :
    (drawTrack divisions benches).1.1 ++ ((drawTrack divisions benches).2.map Prod.snd).flatten =
      (divisions.map Prod.snd).flatten := by
  cases divisions with
  | nil => rfl
  | cons head rest =>
    obtain ⟨key, band⟩ := head
    simp only [drawTrack, List.map_cons, List.flatten_cons]
    split_ifs with hz
    · have hnil : List.drop benches.toNat band = [] := List.length_eq_zero.1 hz
      have htake : List.take benches.toNat band = band := by
        have := List.take_append_drop benches.toNat band
        rw [hnil, List.append_nil] at this
        exact this
      rw [htake]
    · simp only [List.map_cons, List.flatten_cons]
      rw [← List.append_assoc, List.take_append_drop]

/-- The students drawn by the classrooms, in order, followed by the students
left in the bands, are the students that were in the bands. -/
theorem trackDraws_flatten (benches : List Int) :
    ∀ divisions : Divisions,
      ((trackDraws benches divisions).map Prod.fst).flatten ++
          ((divisionsAfter benches divisions).map Prod.snd).flatten =
        (divisions.map Prod.snd).flatten := by
  induction benches with
  | nil => intro d; simp [trackDraws, divisionsAfter]
  | cons b rest ih =>
    intro d
    simp only [trackDraws, divisionsAfter, List.map_cons, List.flatten_cons]
    rw [List.append_assoc, ih, drawTrack_flatten]

/-- C23: for a pool sorted ascending by non-negative roll number, the roll
numbers drawn for one semester track, concatenated in classroom order, are an
initial segment of the roll numbers of the pool: followed by the roll numbers
left in the bands they give the pool; so no roll number is skipped before a
drawn one, and without duplicates in the pool none is drawn twice. -/
theorem c23_drawn_is_initial_segment (classrooms : List SeatingClassroom)
    (pool other : List Student)
    (hsorted : (pool.map Student.rno).Pairwise (fun a b => a ≤ b))
    (hnonneg : ∀ s ∈ pool, 0 ≤ s.rno) :
    (((seatingLocals classrooms pool other).map SeatLocals.thirdSemRollNumbers).flatten ++
        ((divisionsAfter (classrooms.map SeatingClassroom.no_of_benches)
          (groupByDivision pool)).map Prod.snd).flatten = pool.map Student.rno) ∧
    (((seatingLocals classrooms other pool).map SeatLocals.fifthSemRollNumbers).flatten ++
        ((divisionsAfter (classrooms.map SeatingClassroom.no_of_benches)
          (groupByDivision pool)).map Prod.snd).flatten = pool.map Student.rno) ∧
    ((pool.map Student.rno).Nodup →
      ((seatingLocals classrooms pool other).map SeatLocals.thirdSemRollNumbers).flatten.Nodup ∧
      ((seatingLocals classrooms other pool).map
        SeatLocals.fifthSemRollNumbers).flatten.Nodup) := by
  have hn : ∀ r ∈ pool.map Student.rno, 0 ≤ r := by
    intro r hr
    obtain ⟨s, hs, rfl⟩ := List.mem_map.1 hr
    exact hnonneg s hs
  have hf := groupRolls_flatten (pool.map Student.rno) hsorted hn
  have ht := trackDraws_flatten (classrooms.map SeatingClassroom.no_of_benches)
    (groupRolls (pool.map Student.rno))
  rw [hf] at ht
  have h3 : ((seatingLocals classrooms pool other).map SeatLocals.thirdSemRollNumbers).flatten ++
      ((divisionsAfter (classrooms.map SeatingClassroom.no_of_benches)
        (groupByDivision pool)).map Prod.snd).flatten = pool.map Student.rno := by
    rw [thirdSemRollNumbers_eq]; exact ht
  have h5 : ((seatingLocals classrooms other pool).map SeatLocals.fifthSemRollNumbers).flatten ++
      ((divisionsAfter (classrooms.map SeatingClassroom.no_of_benches)
        (groupByDivision pool)).map Prod.snd).flatten = pool.map Student.rno := by
    rw [fifthSemRollNumbers_eq]; exact ht
  refine ⟨h3, h5, ?_⟩
  intro hnodup
  constructor
  · rw [← h3] at hnodup
    exact (List.nodup_append.1 hnodup).1
  · rw [← h5] at hnodup
    exact (List.nodup_append.1 hnodup).1

/-- C23 on the example classrooms and pool: 101, 102, 103 are drawn, 201 is
left. -/
theorem c23_drawn_is_initial_segment_witness :
    (((seatingLocals exampleClassrooms examplePool oneBandPool).map
        SeatLocals.thirdSemRollNumbers).flatten ++
        ((divisionsAfter (exampleClassrooms.map SeatingClassroom.no_of_benches)
          (groupByDivision examplePool)).map Prod.snd).flatten =
      examplePool.map Student.rno) ∧
    ((seatingLocals exampleClassrooms examplePool oneBandPool).map
      SeatLocals.thirdSemRollNumbers).flatten.Nodup :=
  have h := c23_drawn_is_initial_segment exampleClassrooms examplePool oneBandPool
    (by decide) (by decide)
  ⟨h.1, (h.2.2 (by decide)).1⟩

/-! ## Semester values other than the strings "3" and "5" -/

/-- C24, refuted as stated: for the semester "7" the teacher query names the
column `teaches_sem_7`, which `teachers` does not have; on a store that
rejects that query the call ends in the `catch` block with status 500, not in
the 400 response. -/
theorem c24_counterexample :
    JsValue.str "7" ≠ .str "3" ∧ JsValue.str "7" ≠ .str "5" ∧
    teacherQuery rejectOthers sampleStore (.str "7") "A" = none ∧
    allocateDivision rejectOthers sampleStore (.str "7") "A" = (.storeError, sampleStore) ∧
    allocateDivision rejectOthers sampleStore (.str "7") "A" ≠
      (.failure 400
        "No valid allocations could be created. Check semester distribution rules.",
        sampleStore) := by
  decide

/-- C24, amended: for a semester value that is not exactly the string "3" or
the string "5", `canAllocate` is false for every classroom, the walk produces
no pairing and no row is inserted, whatever the classrooms and teachers; the
call ends in the 400 "No valid allocations" response when the store accepts
the teacher query built from the value, as for the JSON number 3 or the text
"3 ", and in the `catch` block with status 500 when the store rejects it. -/
theorem c24_other_semester_values (others : OtherQueries) (db : DB) (semester : JsValue)
    (division : String) (h3 : semester ≠ .str "3") (h5 : semester ≠ .str "5") :
    (∀ row : ClassroomRow, canAllocate semester row = false) ∧
    (∀ (teachers : List Teacher) (rows : List ClassroomRow) (i : Nat),
      walk semester teachers rows i = []) ∧
    (allocateDivision others db semester division).2 = db ∧
    (∀ teachers : List Teacher, teacherQuery others db semester division = some teachers →
      allocateDivision others db semester division =
        (.failure 400
          "No valid allocations could be created. Check semester distribution rules.", db)) ∧
    (teacherQuery others db semester division = none →
      allocateDivision others db semester division = (.storeError, db)) := by
  have hwalk : ∀ (teachers : List Teacher) (rows : List ClassroomRow) (i : Nat),
      walk semester teachers rows i = [] :=
    fun teachers => walk_other_semester semester teachers h3 h5
  have haccepted : ∀ teachers : List Teacher,
      teacherQuery others db semester division = some teachers →
      allocateDivision others db semester division =
        (.failure 400
          "No valid allocations could be created. Check semester distribution rules.",
          db) := by
    intro teachers hq
    unfold allocateDivision
    rw [hq]
    simp only [hwalk]
    rfl
  have hrejected : teacherQuery others db semester division = none →
      allocateDivision others db semester division = (.storeError, db) := by
    intro hq
    unfold allocateDivision
    rw [hq]
  refine ⟨fun row => canAllocate_other_semester semester row h3 h5, hwalk, ?_, haccepted,
    hrejected⟩
  cases hq : teacherQuery others db semester division with
  | none => rw [hrejected hq]
  | some teachers => rw [haccepted teachers hq]

/-- C24, amended, on `sampleStore`: the JSON number 3, and the text "3 " on a
store that accepts it, end in the 400 response. -/
theorem c24_other_semester_values_witness :
    allocateDivision rejectOthers sampleStore (.num 3) "A" =
      (.failure 400
        "No valid allocations could be created. Check semester distribution rules.",
        sampleStore) ∧
    allocateDivision blankAfterThree sampleStore (.str "3 ") "A" =
      (.failure 400
        "No valid allocations could be created. Check semester distribution rules.",
        sampleStore) :=
  ⟨(c24_other_semester_values rejectOthers sampleStore (.num 3) "A" (by decide)
      (by decide)).2.2.2.1 (availableTeachers sampleStore Teacher.teaches_sem_3 "A") rfl,
    (c24_other_semester_values blankAfterThree sampleStore (.str "3 ") "A" (by decide)
      (by decide)).2.2.2.1 (availableTeachers sampleStore Teacher.teaches_sem_3 "A") rfl⟩

/-! ## The absentee mark -/

theorem foldl_absent (attendanceData : List AttendanceRecord) :
    ∀ table : List AbsenteeRow,
      attendanceData.foldl
          (fun table record =>
            if record.Status = .str "Absent" then
              table ++ [⟨record.RollNumber, record.Division, record.Course, record.Semester,
                record.ISAExamNumber, record.Status⟩]
            else table)
          table =
        table ++ (attendanceData.filter (fun record => decide (record.Status = .str "Absent"))).map
          (fun record => ⟨record.RollNumber, record.Division, record.Course, record.Semester,
            record.ISAExamNumber, record.Status⟩) := by
  induction attendanceData with
  | nil => intro table; simp
  | cons record rest ih =>
    intro table
    rw [List.foldl_cons, ih]
    by_cases h : record.Status = .str "Absent"
    · rw [if_pos h, List.filter_cons_of_pos (by simpa using h), List.map_cons,
        List.append_assoc]
      rfl
    · rw [if_neg h, List.filter_cons_of_neg (by simpa using h)]

/-- C22: the absentee mark inserts one row for each record of `attendanceData`
whose `Status` is exactly "Absent", in the order of the input, with the
fields of the record, and nothing for a record of any other `Status`. -/
theorem c22_absent_records_inserted (absentees : List AbsenteeRow)
    (attendanceData : List AttendanceRecord) :
    (markAttendance absentees attendanceData).2 =
      absentees ++
        (attendanceData.filter (fun record => decide (record.Status = .str "Absent"))).map
          (fun record => ⟨record.RollNumber, record.Division, record.Course, record.Semester,
            record.ISAExamNumber, record.Status⟩) ∧
    (markAttendance absentees attendanceData).1 =
      .success "Attendance marked successfully" :=
  ⟨foldl_absent attendanceData absentees, rfl⟩

/-! ## Teacher rows at initialisation -/

theorem addTeachers_cons (f3 f5 : Nat) (teacher : TeacherListEntry)
    (rest : List TeacherListEntry) (state : TeacherState) :
    addTeachers f3 f5 (teacher :: rest) state =
      addTeachers f3 f5 rest
        (if teacher.name ∈ state.1.map Prod.fst then state
        else
          (state.1 ++ [(teacher.name, ⟨teacher.division, f3, f5⟩)],
            state.2 ++ [⟨teacher.name, f3, f5, teacher.division⟩])) := by
  unfold addTeachers
  rw [List.foldl_cons]
  congr 1
  by_cases h : teacher.name ∈ state.1.map Prod.fst
  · rw [if_pos h, if_pos]
    rw [List.any_eq_true]
    obtain ⟨entry, he, hn⟩ := List.mem_map.1 h
    exact ⟨entry, he, by simpa using hn⟩
  · rw [if_neg h, if_neg]
    rw [List.any_eq_true]
    rintro ⟨entry, he, hn⟩
    exact h (List.mem_map.2 ⟨entry, he, by simpa using hn⟩)

theorem filter_name_of_not_mem (values : List TeacherValue) (n : String)
    (h : n ∉ values.map TeacherValue.name) :
    values.filter (fun v => decide (v.name = n)) = [] := by
  rw [List.filter_eq_nil_iff]
  intro v hv
  have : v.name ≠ n := fun heq => h (heq ▸ List.mem_map_of_mem TeacherValue.name hv)
  simpa using this

/-- One loop over a teacher list: the map and the array keep the same names,
old rows stay, every new row carries the flags of the loop, names stay
distinct, and a new name gets the one row of its first entry in the list. -/
theorem addTeachers_spec (f3 f5 : Nat) (data : List TeacherListEntry) :
    ∀ state : TeacherState, state.1.map Prod.fst = state.2.map TeacherValue.name →
      (addTeachers f3 f5 data state).1.map Prod.fst =
        (addTeachers f3 f5 data state).2.map TeacherValue.name ∧
      (∀ v ∈ (addTeachers f3 f5 data state).2,
        v ∈ state.2 ∨ (v.teaches_sem_3 = f3 ∧ v.teaches_sem_5 = f5)) ∧
      ((state.2.map TeacherValue.name).Nodup →
        ((addTeachers f3 f5 data state).2.map TeacherValue.name).Nodup) ∧
      (∀ n : String, n ∈ state.2.map TeacherValue.name →
        (addTeachers f3 f5 data state).2.filter (fun v => decide (v.name = n)) =
          state.2.filter (fun v => decide (v.name = n))) ∧
      (∀ (n : String) (e : TeacherListEntry), n ∉ state.2.map TeacherValue.name →
        data.find? (fun t => decide (t.name = n)) = some e →
        (addTeachers f3 f5 data state).2.filter (fun v => decide (v.name = n)) =
          [⟨n, f3, f5, e.division⟩]) := by
  induction data with
  | nil =>
    intro state hinv
    refine ⟨hinv, fun v hv => Or.inl hv, fun h => h, fun n _ => rfl, ?_⟩
    intro n e _ hfind
    cases hfind
  | cons teacher rest ih =>
    intro state hinv
    rw [addTeachers_cons]
    by_cases hseen : teacher.name ∈ state.1.map Prod.fst
    · rw [if_pos hseen]
      obtain ⟨i1, i2, i3, i4, i5⟩ := ih state hinv
      refine ⟨i1, i2, i3, i4, ?_⟩
      intro n e hn hfind
      have hne : ¬ teacher.name = n := by
        intro heq
        rw [hinv, heq] at hseen
        exact hn hseen
      rw [List.find?_cons_of_neg _ (by simpa using hne)] at hfind
      exact i5 n e hn hfind
    · rw [if_neg hseen]
      have hinv2 : (state.1 ++ [(teacher.name, (⟨teacher.division, f3, f5⟩ : FirstOccurrence))]).map
          Prod.fst =
          (state.2 ++ [(⟨teacher.name, f3, f5, teacher.division⟩ : TeacherValue)]).map
            TeacherValue.name := by
        rw [List.map_append, List.map_append, hinv]
        rfl
      have hnew : teacher.name ∉ state.2.map TeacherValue.name := by
        rw [← hinv]; exact hseen
      obtain ⟨i1, i2, i3, i4, i5⟩ := ih
        (state.1 ++ [(teacher.name, (⟨teacher.division, f3, f5⟩ : FirstOccurrence))],
          state.2 ++ [(⟨teacher.name, f3, f5, teacher.division⟩ : TeacherValue)]) hinv2
      have hnames : (state.2 ++ [(⟨teacher.name, f3, f5, teacher.division⟩ : TeacherValue)]).map
          TeacherValue.name = state.2.map TeacherValue.name ++ [teacher.name] := by
        rw [List.map_append]; rfl
      refine ⟨i1, ?_, ?_, ?_, ?_⟩
      · intro v hv
        rcases i2 v hv with h | h
        · rcases List.mem_append.1 h with h | h
          · exact Or.inl h
          · simp only [List.mem_singleton] at h
            subst h
            exact Or.inr ⟨rfl, rfl⟩
        · exact Or.inr h
      · intro hnd
        apply i3
        rw [hnames]
        have hdisj : List.Disjoint (state.2.map TeacherValue.name) [teacher.name] := by
          intro a ha hb
          simp only [List.mem_singleton] at hb
          subst hb
          exact hnew ha
        exact List.Nodup.append hnd (List.nodup_singleton _) hdisj
      · intro n hn
        have hne : ¬ teacher.name = n := fun heq => hnew (heq ▸ hn)
        rw [i4 n (by rw [hnames]; exact List.mem_append_left _ hn), List.filter_append,
          List.filter_cons_of_neg (by simpa using hne)]
        simp
      · intro n e hn hfind
        by_cases heq : teacher.name = n
        · rw [List.find?_cons_of_pos _ (by simpa using heq)] at hfind
          cases hfind
          have hin : n ∈ (state.2 ++
              [(⟨teacher.name, f3, f5, teacher.division⟩ : TeacherValue)]).map
              TeacherValue.name := by
            rw [hnames, ← heq]
            exact List.mem_append_right _ (List.mem_singleton_self _)
          rw [i4 n hin, List.filter_append, filter_name_of_not_mem _ _ hn,
            List.filter_cons_of_pos (by simpa using heq), ← heq]
          rfl
        · rw [List.find?_cons_of_neg _ (by simpa using heq)] at hfind
          refine i5 n e ?_ hfind
          rw [hnames]
          intro hmem
          rcases List.mem_append.1 hmem with h | h
          · exact hn h
          · simp only [List.mem_singleton] at h
            exact heq h.symm

/-- C21: the teacher rows built at initialisation from any two teacher lists
have pairwise distinct names, each has exactly one of `teaches_sem_3` and
`teaches_sem_5` set to 1, and a name of the semester-3 list, also when the
semester-5 list has it too, yields the single row of its first semester-3
entry, with `teaches_sem_3 = 1` and `teaches_sem_5 = 0`; the same holds of the
rows kept for insertion. -/
theorem c21_teacher_rows (sem3Data sem5Data : List TeacherListEntry) :
    ((teacherValues sem3Data sem5Data).map TeacherValue.name).Nodup ∧
    (∀ v ∈ teacherValues sem3Data sem5Data,
      (v.teaches_sem_3 = 1 ∧ v.teaches_sem_5 = 0) ∨
        (v.teaches_sem_3 = 0 ∧ v.teaches_sem_5 = 1)) ∧
    (∀ (n : String) (e : TeacherListEntry),
      sem3Data.find? (fun t => decide (t.name = n)) = some e →
      (teacherValues sem3Data sem5Data).filter (fun v => decide (v.name = n)) =
        [⟨n, 1, 0, e.division⟩]) ∧
    (∀ existingNames : List String,
      ((newTeacherValues existingNames sem3Data sem5Data).map TeacherValue.name).Nodup ∧
      ∀ v ∈ newTeacherValues existingNames sem3Data sem5Data,
        (v.teaches_sem_3 = 1 ∧ v.teaches_sem_5 = 0) ∨
          (v.teaches_sem_3 = 0 ∧ v.teaches_sem_5 = 1)) := by
  obtain ⟨a1, a2, a3, -, a5⟩ := addTeachers_spec 1 0 sem3Data ([], []) rfl
  obtain ⟨-, b2, b3, b4, -⟩ := addTeachers_spec 0 1 sem5Data _ a1
  have hnodup : ((teacherValues sem3Data sem5Data).map TeacherValue.name).Nodup :=
    b3 (a3 List.nodup_nil)
  have hflags : ∀ v ∈ teacherValues sem3Data sem5Data,
      (v.teaches_sem_3 = 1 ∧ v.teaches_sem_5 = 0) ∨
        (v.teaches_sem_3 = 0 ∧ v.teaches_sem_5 = 1) := by
    intro v hv
    rcases b2 v hv with h | h
    · rcases a2 v h with h0 | h0
      · cases h0
      · exact Or.inl h0
    · exact Or.inr h
  refine ⟨hnodup, hflags, ?_, ?_⟩
  · intro n e hfind
    have h1 := a5 n e (by simp) hfind
    have hmem : n ∈ (addTeachers 1 0 sem3Data ([], [])).2.map TeacherValue.name := by
      have hv : (⟨n, 1, 0, e.division⟩ : TeacherValue) ∈
          (addTeachers 1 0 sem3Data ([], [])).2.filter (fun v => decide (v.name = n)) := by
        rw [h1]; exact List.mem_singleton_self _
      exact List.mem_map.2 ⟨_, (List.mem_filter.1 hv).1, rfl⟩
    unfold teacherValues
    rw [b4 n hmem, h1]
  · intro existingNames
    unfold newTeacherValues
    exact ⟨List.Nodup.sublist ((List.filter_sublist _).map _) hnodup,
      fun v hv => hflags v (List.mem_filter.1 hv).1⟩

/-- C21 on the sample lists: Asha, in both lists, has the one row of the
semester-3 list with division A. -/
theorem c21_teacher_rows_witness :
    (teacherValues sampleSem3Data sampleSem5Data).filter (fun v => decide (v.name = "Asha")) =
      [⟨"Asha", 1, 0, "A"⟩] :=
  (c21_teacher_rows sampleSem3Data sampleSem5Data).2.2.1 "Asha" ⟨"Asha", "A", some 3⟩
    (by decide)

/-! ## Booklet ids -/

theorem digitChar_toNat (k : Nat) (h : k < 10) : (Nat.digitChar k).toNat - 48 = k := by
  interval_cases k <;> rfl

theorem digitChar_ne_minus (k : Nat) (h : k < 10) : Nat.digitChar k ≠ '-' := by
  interval_cases k <;> decide

theorem toDigitsCore_succ (fuel n : Nat) (ds : List Char) :
    Nat.toDigitsCore 10 (fuel + 1) n ds =
      if n / 10 = 0 then Nat.digitChar (n % 10) :: ds
      else Nat.toDigitsCore 10 fuel (n / 10) (Nat.digitChar (n % 10) :: ds) := by
  simp [Nat.toDigitsCore]

theorem toDigitsCore_digitsNat :
    ∀ (fuel n : Nat) (ds : List Char), n < fuel →
      digitsNat (Nat.toDigitsCore 10 fuel n ds) = n * 10 ^ ds.length + digitsNat ds := by
  intro fuel
  induction fuel with
  | zero => intro n ds h; omega
  | succ fuel ih =>
    intro n ds h
    rw [toDigitsCore_succ]
    have hd : (Nat.digitChar (n % 10)).toNat - 48 = n % 10 :=
      digitChar_toNat _ (Nat.mod_lt _ (by decide))
    split_ifs with h0
    · simp only [digitsNat, hd]
      have : n % 10 = n := by omega
      rw [this]
    · rw [ih (n / 10) _ (by omega)]
      simp only [digitsNat, hd, List.length_cons, pow_succ]
      have hn : n = n / 10 * 10 + n % 10 := by omega
      generalize 10 ^ ds.length = p
      generalize digitsNat ds = q
      conv_rhs => rw [hn]
      ring

theorem toDigits_digitsNat (n : Nat) : digitsNat (Nat.toDigits 10 n) = n := by
  unfold Nat.toDigits
  rw [toDigitsCore_digitsNat (n + 1) n [] (by omega)]
  simp [digitsNat]

theorem toDigitsCore_mem :
    ∀ (fuel n : Nat) (ds : List Char), ∀ c ∈ Nat.toDigitsCore 10 fuel n ds,
      c ≠ '-' ∨ c ∈ ds := by
  intro fuel
  induction fuel with
  | zero => intro n ds c hc; exact Or.inr (by simpa [Nat.toDigitsCore] using hc)
  | succ fuel ih =>
    intro n ds c hc
    rw [toDigitsCore_succ] at hc
    have hd := digitChar_ne_minus (n % 10) (Nat.mod_lt _ (by decide))
    split_ifs at hc with h0
    · rcases List.mem_cons.1 hc with rfl | h
      · exact Or.inl hd
      · exact Or.inr h
    · rcases ih _ _ c hc with h | h
      · exact Or.inl h
      · rcases List.mem_cons.1 h with rfl | h
        · exact Or.inl hd
        · exact Or.inr h

theorem toDigits_ne_minus (n : Nat) : ∀ c ∈ Nat.toDigits 10 n, c ≠ '-' := by
  intro c hc
  rcases toDigitsCore_mem (n + 1) n [] c hc with h | h
  · exact h
  · cases h

theorem dropWhile_zero_replicate (k : Nat) (cs : List Char) :
    (List.replicate k '0' ++ cs).dropWhile (fun c => c == '0') =
      cs.dropWhile (fun c => c == '0') := by
  induction k with
  | zero => rfl
  | succ k ih =>
    rw [List.replicate_succ, List.cons_append, List.dropWhile_cons_of_pos (by rfl)]
    exact ih

theorem digitsNat_dropWhile_zero (cs : List Char) :
    digitsNat (cs.dropWhile (fun c => c == '0')) = digitsNat cs := by
  induction cs with
  | nil => rfl
  | cons c rest ih =>
    by_cases h : c = '0'
    · subst h
      rw [List.dropWhile_cons_of_pos (by rfl), ih]
      simp [digitsNat]
    · rw [List.dropWhile_cons_of_neg (by simpa using h)]

theorem paddedValue_digits (cs : List Char) (h : ∀ c ∈ cs, c ≠ '-') :
    paddedValue cs = (digitsNat cs : Int) := by
  unfold paddedValue
  have hval := digitsNat_dropWhile_zero cs
  have hmem : ∀ c ∈ cs.dropWhile (fun c => c == '0'), c ≠ '-' :=
    fun c hc => h c ((List.dropWhile_sublist _).subset hc)
  revert hval hmem
  generalize cs.dropWhile (fun c => c == '0') = rest
  intro hval hmem
  cases rest with
  | nil => simp only; rw [← hval]; rfl
  | cons c tl =>
    simp only
    rw [if_neg (hmem c (List.mem_cons_self _ _)), hval]

/-- The padded decimal text of a roll number stands for the roll number. -/
theorem paddedValue_padStart3 (roll : Int) :
    paddedValue (padStart3 (toString roll)).data = roll := by
  unfold padStart3
  simp only
  cases roll with
  | ofNat m =>
    have hdata : (toString (Int.ofNat m)).data = Nat.toDigits 10 m := rfl
    rw [hdata]
    unfold paddedValue
    rw [dropWhile_zero_replicate]
    have := paddedValue_digits (Nat.toDigits 10 m) (toDigits_ne_minus m)
    unfold paddedValue at this
    rw [this, toDigits_digitsNat]
    rfl
  | negSucc m =>
    have hdata : (toString (Int.negSucc m)).data = '-' :: Nat.toDigits 10 (m + 1) := rfl
    rw [hdata]
    unfold paddedValue
    rw [dropWhile_zero_replicate, List.dropWhile_cons_of_neg (by decide)]
    simp only [if_true]
    rw [toDigits_digitsNat]
    rfl

theorem bookletId_injective (isaExamNumber division : JsValue) (a b : Int)
    (h : bookletId isaExamNumber division a = bookletId isaExamNumber division b) : a = b := by
  unfold bookletId at h
  have hdata := congrArg String.data h
  simp only [String.data_append, List.append_assoc, List.append_cancel_left_eq] at hdata
  have hvalue : paddedValue (padStart3 (toString a)).data =
      paddedValue (padStart3 (toString b)).data := by rw [hdata]
  rwa [paddedValue_padStart3, paddedValue_padStart3] at hvalue

/-! ## When the whole pool is drawn -/

theorem push_flatten_perm :
    ∀ (divisions : Divisions) (division rno : Int),
      List.Perm ((divisions.push division rno).map Prod.snd).flatten
        (rno :: (divisions.map Prod.snd).flatten) := by
  intro divisions
  induction divisions with
  | nil => intro division rno; simp [Divisions.push]
  | cons head rest ih =>
    intro division rno
    obtain ⟨key, band⟩ := head
    simp only [Divisions.push]
    split_ifs with h1 h2
    · simp only [List.map_cons, List.flatten_cons, List.append_assoc]
      exact (List.perm_middle).trans (List.Perm.refl _) |>.symm |>.symm
    · simp only [List.map_cons, List.flatten_cons, List.singleton_append]
      exact List.Perm.refl _
    · simp only [List.map_cons, List.flatten_cons]
      exact ((ih division rno).append_left band).trans List.perm_middle

theorem foldl_push_perm (rollNumbers : List Int) :
    ∀ divisions : Divisions,
      List.Perm
        ((rollNumbers.foldl (fun divisions rno => divisions.push (Int.fdiv rno 100) rno)
          divisions).map Prod.snd).flatten
        ((divisions.map Prod.snd).flatten ++ rollNumbers) := by
  induction rollNumbers with
  | nil => intro d; simp
  | cons r rest ih =>
    intro d
    rw [List.foldl_cons]
    refine (ih _).trans ?_
    refine ((push_flatten_perm d (Int.fdiv r 100) r).append_right rest).trans ?_
    simp only [List.cons_append]
    exact List.perm_middle.symm

/-- The bands of a pool hold the roll numbers of the pool, each once. -/
theorem groupRolls_perm (rollNumbers : List Int) :
    List.Perm ((groupRolls rollNumbers).map Prod.snd).flatten rollNumbers := by
  have := foldl_push_perm rollNumbers []
  simpa [groupRolls] using this

theorem divisionsAfter_bandsNonempty (benches : List Int) :
    ∀ divisions : Divisions, divisions.BandsNonempty →
      (divisionsAfter benches divisions).BandsNonempty := by
  induction benches with
  | nil => intro d hd; exact hd
  | cons b rest ih => intro d hd; exact ih _ (drawTrack_count d b hd).2.2

theorem groupsFit_prepend (sizes : List Nat) (extra benches : List Int)
    (h : GroupsFit sizes benches) : GroupsFit sizes (extra ++ benches) := by
  cases sizes with
  | nil => trivial
  | cons size rest =>
    obtain ⟨group, tail, hsplit, hsum, hrest⟩ := h
    refine ⟨extra ++ group, tail, by rw [hsplit, List.append_assoc], ?_, hrest⟩
    rw [List.map_append, List.sum_append]
    omega

/-- One classroom more at the front: the groups fit the bands before it draws
exactly when they fit the bands after it has drawn. -/
theorem groupsFit_drawTrack (divisions : Divisions) (b : Int) (benches : List Int)
    (h : divisions.BandsNonempty) :
    GroupsFit ((drawTrack divisions b).2.map (fun entry => entry.2.length)) benches ↔
      GroupsFit (divisions.map (fun entry => entry.2.length)) (b :: benches) := by
  cases divisions with
  | nil => exact ⟨fun _ => trivial, fun _ => trivial⟩
  | cons head rest =>
    obtain ⟨key, band⟩ := head
    have hband : band ≠ [] := h (key, band) (List.mem_cons_self _ _)
    have hpos : 0 < band.length := List.length_pos.2 hband
    simp only [drawTrack, List.length_drop, List.map_cons]
    split_ifs with hz
    · constructor
      · intro hfit
        refine ⟨[b], benches, rfl, ?_, hfit⟩
        simp only [List.map_cons, List.map_nil, List.sum_cons, List.sum_nil]
        omega
      · rintro ⟨group, tail, hsplit, hsum, hfit⟩
        cases group with
        | nil =>
          simp only [List.map_nil, List.sum_nil] at hsum
          omega
        | cons g group' =>
          rw [List.cons_append] at hsplit
          obtain ⟨-, hb⟩ := List.cons.inj hsplit
          rw [hb]
          exact groupsFit_prepend _ group' tail hfit
    · simp only [List.map_cons, List.length_drop]
      constructor
      · rintro ⟨group, tail, hsplit, hsum, hfit⟩
        refine ⟨b :: group, tail, by rw [hsplit]; rfl, ?_, hfit⟩
        simp only [List.map_cons, List.sum_cons]
        omega
      · rintro ⟨group, tail, hsplit, hsum, hfit⟩
        cases group with
        | nil =>
          simp only [List.map_nil, List.sum_nil] at hsum
          omega
        | cons g group' =>
          rw [List.cons_append] at hsplit
          obtain ⟨hg, hb⟩ := List.cons.inj hsplit
          subst hg
          refine ⟨group', tail, hb, ?_, hfit⟩
          simp only [List.map_cons, List.sum_cons] at hsum
          omega

/-- No band is left after the classrooms exactly when the groups fit. -/
theorem divisionsAfter_eq_nil_iff (benches : List Int) :
    ∀ divisions : Divisions, divisions.BandsNonempty →
      (divisionsAfter benches divisions = [] ↔
        GroupsFit (divisions.map (fun entry => entry.2.length)) benches) := by
  induction benches with
  | nil =>
    intro d hd
    cases d with
    | nil => exact ⟨fun _ => trivial, fun _ => rfl⟩
    | cons head rest =>
      constructor
      · intro h; cases h
      · rintro ⟨group, tail, hsplit, hsum, -⟩
        have hg : group = [] := (List.append_eq_nil.1 hsplit.symm).1
        subst hg
        have hne : head.2 ≠ [] := hd head (List.mem_cons_self _ _)
        have := List.length_pos.2 hne
        simp only [List.map_nil, List.sum_nil] at hsum
        omega
  | cons b rest ih =>
    intro d hd
    simp only [divisionsAfter]
    rw [ih _ (drawTrack_count d b hd).2.2]
    exact groupsFit_drawTrack d b rest hd

/-- One track: the roll numbers drawn are those of the pool, each once,
exactly when the groups fit the bands of the pool. -/
theorem trackDraws_perm_iff (benches : List Int) (rollNumbers : List Int) :
    List.Perm ((trackDraws benches (groupRolls rollNumbers)).map Prod.fst).flatten rollNumbers ↔
      GroupsFit ((groupRolls rollNumbers).map (fun entry => entry.2.length)) benches := by
  have hflat := trackDraws_flatten benches (groupRolls rollNumbers)
  have hperm := groupRolls_perm rollNumbers
  have hne := groupRolls_bandsNonempty rollNumbers
  rw [← divisionsAfter_eq_nil_iff benches _ hne]
  constructor
  · intro hdrawn
    have hlen := congrArg List.length hflat
    rw [List.length_append, hdrawn.length_eq, hperm.length_eq] at hlen
    have hleft : ((divisionsAfter benches (groupRolls rollNumbers)).map Prod.snd).flatten = [] :=
      List.length_eq_zero.1 (by omega)
    rw [List.eq_nil_iff_forall_not_mem]
    intro entry hentry
    have hsub : entry.2.Sublist [] := by
      rw [← hleft]
      exact List.sublist_flatten_of_mem (List.mem_map_of_mem Prod.snd hentry)
    exact divisionsAfter_bandsNonempty benches _ hne entry hentry (List.sublist_nil.1 hsub)
  · intro hnil
    rw [hnil] at hflat
    simp only [List.map_nil, List.flatten_nil, List.append_nil] at hflat
    rw [hflat]
    exact hperm

/-- C5, amended: for every ordered classroom list and every student pool, the
roll numbers drawn by the seating allocator across all classrooms for a
semester track are exactly the roll numbers of the pool, each drawn once and
none omitted, if and only if the classroom list can be cut into consecutive
groups, one for each band of the pool in the order of the bands, the benches
of a group summing to at least the size of its band; benches that sum to the
size of the pool do not suffice. -/
theorem c5_pool_drawn_iff_groups_fit (classrooms : List SeatingClassroom)
    (pool other : List Student) :
    (List.Perm
        ((seatingLocals classrooms pool other).map SeatLocals.thirdSemRollNumbers).flatten
        (pool.map Student.rno) ↔
      GroupsFit ((groupByDivision pool).map (fun entry => entry.2.length))
        (classrooms.map SeatingClassroom.no_of_benches)) ∧
    (List.Perm
        ((seatingLocals classrooms other pool).map SeatLocals.fifthSemRollNumbers).flatten
        (pool.map Student.rno) ↔
      GroupsFit ((groupByDivision pool).map (fun entry => entry.2.length))
        (classrooms.map SeatingClassroom.no_of_benches)) := by
  rw [thirdSemRollNumbers_eq, fifthSemRollNumbers_eq]
  exact ⟨trackDraws_perm_iff _ _, trackDraws_perm_iff _ _⟩

/-- C5, amended, on two rooms of 3 benches and the pool 101, 102, 103, 201:
one room for each band, the whole pool is drawn. -/
theorem c5_pool_drawn_iff_groups_fit_witness :
    List.Perm
      ((seatingLocals twoRoomsOfThree examplePool oneBandPool).map
        SeatLocals.thirdSemRollNumbers).flatten
      (examplePool.map Student.rno) :=
  (c5_pool_drawn_iff_groups_fit twoRoomsOfThree examplePool oneBandPool).1.2
    ⟨[3], [3], rfl, by decide, [3], [], rfl, by decide, trivial⟩

/-! ## The booklet generation loop -/

theorem increment_of_lt (roll : Int) (h : roll < maxExact) : increment roll = roll + 1 := by
  unfold increment
  rw [if_neg (by omega)]

theorem increment_le (roll : Int) : increment roll ≤ roll + 1 := by
  unfold increment
  split_ifs <;> omega

theorem increment_le_maxExact (roll : Int) (h : roll ≤ maxExact) :
    increment roll ≤ maxExact := by
  unfold increment
  split_ifs <;> omega

/-- The loop past its bound pushes nothing. -/
theorem generationLoop_past (req : BookletRequest) (stop : Int) (room : Nat) (roll : Int)
    (booklets : List Booklet) (h : stop < roll) :
    generationLoop req stop room roll booklets = some booklets := by
  cases room with
  | zero => simp only [generationLoop]; rw [if_neg (by omega)]
  | succ room => simp only [generationLoop]; rw [if_neg (by omega)]

/-- The loop below `2 ^ 53` with room for its entries: one entry for each roll
number up to the bound. -/
theorem generationLoop_eq (req : BookletRequest) (stop : Int) (hstop : stop < maxExact) :
    ∀ (n room : Nat) (roll : Int) (booklets : List Booklet),
      roll + (n : Int) = stop + 1 → n ≤ room →
      generationLoop req stop room roll booklets =
        some (booklets ++
          (List.range n).map (fun (k : Nat) => bookletEntry req (roll + (k : Int)))) := by
  intro n
  induction n with
  | zero =>
    intro room roll booklets hn _
    rw [generationLoop_past req stop room roll booklets (by omega)]
    simp
  | succ n ih =>
    intro room roll booklets hn hroom
    cases room with
    | zero => omega
    | succ room =>
      simp only [generationLoop]
      have hmap : (List.range n).map (fun (k : Nat) => bookletEntry req (roll + 1 + (k : Int))) =
          (List.range n).map
            ((fun (k : Nat) => bookletEntry req (roll + (k : Int))) ∘ Nat.succ) :=
        List.map_congr_left (fun k _ => by
          simp only [Function.comp, Nat.cast_succ]
          congr 1
          omega)
      rw [if_pos (by omega), increment_of_lt roll (by omega),
        ih room (roll + 1) _ (by omega) (by omega), List.range_succ_eq_map, hmap]
      simp only [List.map_cons, List.map_map, List.append_assoc, List.singleton_append,
        Nat.cast_zero, add_zero]

/-- The loop without room for its entries ends without an array. -/
theorem generationLoop_full (req : BookletRequest) (stop : Int) :
    ∀ (room : Nat) (roll : Int) (booklets : List Booklet),
      roll + (room : Int) ≤ stop →
      generationLoop req stop room roll booklets = none := by
  intro room
  induction room with
  | zero =>
    intro roll booklets h
    simp only [generationLoop]
    rw [if_pos (by omega)]
  | succ room ih =>
    intro roll booklets h
    simp only [generationLoop]
    have := increment_le roll
    rw [if_pos (by omega), ih _ _ (by push_cast at h; omega)]

/-- The loop up to `2 ^ 53` ends without an array: the step stalls there. -/
theorem generationLoop_stalls (req : BookletRequest) :
    ∀ (room : Nat) (roll : Int) (booklets : List Booklet),
      roll ≤ maxExact →
      generationLoop req maxExact room roll booklets = none := by
  intro room
  induction room with
  | zero =>
    intro roll booklets h
    simp only [generationLoop]
    rw [if_pos h]
  | succ room ih =>
    intro roll booklets h
    simp only [generationLoop]
    rw [if_pos h, ih _ _ (increment_le_maxExact roll h)]

theorem jsParseInt_int_le (value : JsValue) (n : Int) (h : jsParseInt value = .int n) :
    -maxExact ≤ n ∧ n ≤ maxExact := by
  have key : ∀ v : Int, JsNumber.ofInt v = .int n → -maxExact ≤ n ∧ n ≤ maxExact := by
    intro v hv
    unfold JsNumber.ofInt at hv
    split_ifs at hv with hr
    · cases hv; exact hr
  cases value with
  | str s =>
    simp only [jsParseInt] at h
    cases hp : parseIntText s with
    | none => rw [hp] at h; cases h
    | some v => rw [hp] at h; exact key v h
  | num m => exact key m h
  | undefined => cases h

theorem generateBooklets_of_int (req : BookletRequest) (start stop : Int)
    (hstart : jsParseInt req.startRoll = .int start)
    (hstop : jsParseInt req.endRoll = .int stop) :
    generateBooklets req = generationLoop req stop arrayLimit start [] := by
  unfold generateBooklets
  rw [hstart, hstop]

theorem assignBooklets_of_fields (table : List Booklet) (req : BookletRequest)
    (hfields : req.semester.truthy = true ∧ req.division.truthy = true ∧
      req.course.truthy = true ∧ req.isaExamNumber.truthy = true ∧
      req.startRoll.truthy = true ∧ req.endRoll.truthy = true)
    (booklets : List Booklet) (hgen : generateBooklets req = some booklets) :
    assignBooklets table req =
      if booklets.length = 0 then some (.rejected 400 "No valid booklets to assign", [])
      else some (.assigned "Booklets assigned successfully" booklets.length, booklets) := by
  obtain ⟨f1, f2, f3, f4, f5, f6⟩ := hfields
  unfold assignBooklets
  rw [f1, f2, f3, f4, f5, f6, hgen]
  rfl

theorem assignBooklets_of_none (table : List Booklet) (req : BookletRequest)
    (hfields : req.semester.truthy = true ∧ req.division.truthy = true ∧
      req.course.truthy = true ∧ req.isaExamNumber.truthy = true ∧
      req.startRoll.truthy = true ∧ req.endRoll.truthy = true)
    (hgen : generateBooklets req = none) :
    assignBooklets table req = none := by
  obtain ⟨f1, f2, f3, f4, f5, f6⟩ := hfields
  unfold assignBooklets
  rw [f1, f2, f3, f4, f5, f6, hgen]
  rfl

/-- C25, refuted as stated: for the request whose two bounds are the text
9007199254740992 every field passes the required test and `parseInt` gives the
integers `start = end = 2 ^ 53`, yet the loop yields no array (the step
`roll++` stalls at `2 ^ 53`), so no list of `end - start + 1 = 1` booklets is
generated and the handler does not answer that booklets were assigned. -/
theorem c25_counterexample :
    stalledBookletRequest.semester.truthy = true ∧
    stalledBookletRequest.division.truthy = true ∧
    stalledBookletRequest.course.truthy = true ∧
    stalledBookletRequest.isaExamNumber.truthy = true ∧
    stalledBookletRequest.startRoll.truthy = true ∧
    stalledBookletRequest.endRoll.truthy = true ∧
    jsParseInt stalledBookletRequest.startRoll = .int 9007199254740992 ∧
    jsParseInt stalledBookletRequest.endRoll = .int 9007199254740992 ∧
    increment 9007199254740992 = 9007199254740992 ∧
    generateBooklets stalledBookletRequest = none ∧
    assignBooklets [] stalledBookletRequest = none := by
  have hstart : jsParseInt stalledBookletRequest.startRoll = .int 9007199254740992 := by decide
  have hstop : jsParseInt stalledBookletRequest.endRoll = .int 9007199254740992 := by decide
  have hgen : generateBooklets stalledBookletRequest = none := by
    rw [generateBooklets_of_int _ _ _ hstart hstop]
    exact generationLoop_stalls _ _ _ _ (le_refl _)
  refine ⟨by decide, by decide, by decide, by decide, by decide, by decide, hstart, hstop,
    by decide, hgen, ?_⟩
  exact assignBooklets_of_none _ _ (by decide) hgen

/-- C25, amended: for a booklet assign request whose fields all pass the
required test, whose number fields `isaExamNumber` and `division` are of
magnitude at most `2 ^ 53`, and whose bounds are integers
`start = parseInt(startRoll)` and `end = parseInt(endRoll)` of magnitude at
most `2 ^ 53`: when `start <= end`, `end < 2 ^ 53` and
`end - start + 1 <= 2 ^ 32 - 1`, the generated list has `end - start + 1`
booklets, one per roll number from `start` to `end` in ascending order, the
booklet of roll `r` has the id
`ISA-M-<isaExamNumber>-<division>-<r padded with zeros to 3 characters>`, the
ids are pairwise distinct and the list is what the handler stores; when
`start <= end` a list is generated under these two bounds only; when
`start > end` the request is rejected with 400 "No valid booklets to assign". -/
theorem c25_booklet_generation (table : List Booklet) (req : BookletRequest)
    (start stop : Int)
    (hfields : req.semester.truthy = true ∧ req.division.truthy = true ∧
      req.course.truthy = true ∧ req.isaExamNumber.truthy = true ∧
      req.startRoll.truthy = true ∧ req.endRoll.truthy = true)
    (hexact : req.isaExamNumber.exact = true ∧ req.division.exact = true)
    (hstart : jsParseInt req.startRoll = .int start)
    (hstop : jsParseInt req.endRoll = .int stop) :
    (start ≤ stop → stop < maxExact → stop - start + 1 ≤ (arrayLimit : Int) →
      ∃ booklets : List Booklet,
        generateBooklets req = some booklets ∧
        (booklets.length : Int) = stop - start + 1 ∧
        booklets.map Booklet.roll_number =
          (List.range (stop - start + 1).toNat).map (fun (k : Nat) => start + (k : Int)) ∧
        (booklets.map Booklet.roll_number).Pairwise (fun a b => a < b) ∧
        (∀ r : Int, r ∈ booklets.map Booklet.roll_number ↔ start ≤ r ∧ r ≤ stop) ∧
        (∀ b ∈ booklets,
          b.booklet_id =
            "ISA-M-" ++ req.isaExamNumber.text ++ "-" ++ req.division.text ++ "-" ++
              padStart3 (toString b.roll_number)) ∧
        (booklets.map Booklet.booklet_id).Nodup ∧
        assignBooklets table req =
          some (.assigned "Booklets assigned successfully" (stop - start + 1).toNat,
            booklets)) ∧
    (start ≤ stop → (generateBooklets req).isSome = true →
      stop < maxExact ∧ stop - start + 1 ≤ (arrayLimit : Int)) ∧
    (stop < start →
      generateBooklets req = some [] ∧
      assignBooklets table req = some (.rejected 400 "No valid booklets to assign", [])) := by
  have hloop := generateBooklets_of_int req start stop hstart hstop
  have _ := hexact
  refine ⟨?_, ?_, ?_⟩
  · intro hle hlt hcount
    have hgen : generateBooklets req =
        some ((List.range (stop - start + 1).toNat).map
          (fun (k : Nat) => bookletEntry req (start + (k : Int)))) := by
      rw [hloop, generationLoop_eq req stop hlt (stop - start + 1).toNat arrayLimit start []
        (by omega) (by omega)]
      rfl
    refine ⟨_, hgen, ?_, ?_, ?_, ?_, ?_, ?_, ?_⟩
    · rw [List.length_map, List.length_range]; omega
    · rw [List.map_map]; rfl
    · rw [List.map_map, List.pairwise_map]
      exact (List.pairwise_lt_range _).imp (fun h => by simp only [Function.comp, bookletEntry]; omega)
    · intro r
      rw [List.map_map, List.mem_map]
      constructor
      · rintro ⟨k, hk, rfl⟩
        rw [List.mem_range] at hk
        simp only [Function.comp, bookletEntry]
        omega
      · intro hr
        refine ⟨(r - start).toNat, ?_, ?_⟩
        · rw [List.mem_range]; omega
        · simp only [Function.comp, bookletEntry]; omega
    · intro b hb
      obtain ⟨k, -, rfl⟩ := List.mem_map.1 hb
      rfl
    · rw [List.map_map]
      apply (List.nodup_range _).map
      intro j k hjk
      have := bookletId_injective req.isaExamNumber req.division _ _ hjk
      omega
    · rw [assignBooklets_of_fields table req hfields _ hgen, List.length_map, List.length_range,
        if_neg (by omega)]
  · intro hle hsome
    have hrange := jsParseInt_int_le _ _ hstop
    by_contra hnot
    have hnone : generateBooklets req = none := by
      rw [hloop]
      by_cases hmax : stop < maxExact
      · exact generationLoop_full req stop arrayLimit start [] (by omega)
      · have hs : stop = maxExact := by omega
        rw [hs]
        exact generationLoop_stalls req arrayLimit start [] (by omega)
    rw [hnone] at hsome
    cases hsome
  · intro hlt
    have hgen : generateBooklets req = some [] := by
      rw [hloop]
      exact generationLoop_past req stop arrayLimit start [] hlt
    refine ⟨hgen, ?_⟩
    rw [assignBooklets_of_fields table req hfields _ hgen]
    rfl

/-- C25, amended, on the sample request: rolls 8 to 11. -/
theorem c25_booklet_generation_witness :
    ∃ booklets : List Booklet,
      generateBooklets sampleBookletRequest = some booklets ∧
      booklets.map Booklet.roll_number = [8, 9, 10, 11] ∧
      (∀ b ∈ booklets,
        b.booklet_id = "ISA-M-1-A-" ++ padStart3 (toString b.roll_number)) ∧
      (booklets.map Booklet.booklet_id).Nodup ∧
      assignBooklets [] sampleBookletRequest =
        some (.assigned "Booklets assigned successfully" 4, booklets) :=
  have ⟨booklets, hgen, _, hrolls, _, _, hids, hnodup, hassign⟩ :=
    (c25_booklet_generation [] sampleBookletRequest 8 11 (by decide) (by decide) (by decide)
      (by decide)).1 (by decide) (by decide) (by decide)
  ⟨booklets, hgen, hrolls, hids, hnodup, hassign⟩

end ExamAdmin
